import Mathlib

/-!
Verification development for the Drawback Chess engine core: the drawback
(handicap) move filters, the position evaluator with piece-square tables,
the Zobrist position hasher, the configuration resolver, and the two move
search routines (heuristic scorer and Monte Carlo Tree Search).

Chess rule knowledge (legal move generation, move application, check and
outcome detection) lives in the external `shakmaty` crate; it is modelled
here as an oracle record of functions (`ChessOracle`) over a `Position`
snapshot, matching the architecture in which the core only filters,
consumes and extends the output of that external primitive.  Floating
point arithmetic of the source is modelled with exact rationals, with
`f64 as i32` truncation modelled by truncation toward zero.
-/

set_option maxRecDepth 200000

namespace DC

/-- Piece color, as in shakmaty. -/
inductive Color where
  | white
  | black
deriving DecidableEq, Repr

/-- The opposite color. -/
def Color.flip : Color → Color
  | .white => .black
  | .black => .white

/-- Piece role, as in shakmaty. -/
inductive Role where
  | pawn
  | knight
  | bishop
  | rook
  | queen
  | king
deriving DecidableEq, Repr

/-- A colored piece. -/
structure Piece where
  color : Color
  role : Role
deriving DecidableEq, Repr

/-- Squares are numbered 0..63 with file = n % 8 (0 = file A) and
rank = n / 8 (0 = rank 1), matching shakmaty and the index computations
`square_to_index` in `evaluation.rs` and `zobrist.rs`. -/
abbrev Square := Fin 64

/-- Moves, mirroring shakmaty's `Move` enum. -/
inductive Move where
  | normal (role : Role) (fromSq : Square) (capture : Option Role) (toSq : Square)
      (promotion : Option Role)
  | enPassant (fromSq toSq : Square)
  | castle (king rook : Square)
  | put (role : Role) (toSq : Square)
deriving DecidableEq, Repr

instance : Inhabited Move := ⟨Move.put Role.pawn ⟨0, by omega⟩⟩

/-- shakmaty `Move::to`: for a castle this is the king's destination,
file C when the rook is below the king and file G otherwise. -/
def Move.toSq : Move → Square
  | .normal _ _ _ t _ => t
  | .enPassant _ t => t
  | .castle k r =>
      ⟨(k.val / 8) * 8 + (if r.val < k.val then 2 else 6), by
        have hk := k.isLt
        have : k.val / 8 ≤ 7 := by omega
        split <;> omega⟩
  | .put _ t => t

/-- shakmaty `Move::from`. -/
def Move.fromSq : Move → Option Square
  | .normal _ f _ _ _ => some f
  | .enPassant f _ => some f
  | .castle k _ => some k
  | .put _ _ => none

/-- Whether the move matches `Move::Castle { .. }`. -/
def Move.isCastle : Move → Bool
  | .castle _ _ => true
  | _ => false

/-- The file (0 = A .. 7 = H) of a square. -/
def fileOf (sq : Square) : Nat := sq.val % 8

/-- The rank (0 = rank 1 .. 7 = rank 8) of a square. -/
def rankOf (sq : Square) : Nat := sq.val / 8

/-- A board-state snapshot: placement, side to move, castling rights and
the legal-mode en-passant file, the data the core reads directly from
the host position (spec data model for `Position`). -/
structure Position where
  pieceAt : Square → Option Piece
  turn : Color
  castleWK : Bool
  castleWQ : Bool
  castleBK : Bool
  castleBQ : Bool
  epFile : Option (Fin 8)

/-- `DrawbackId` from `drawbacks/registry.rs`. -/
inductive DrawbackId where
  | none
  | noCastling
  | pawnPushOneOnly
  | blockRandomFile
deriving DecidableEq, Repr

/-- `DrawbackId::to_key_index` from `drawbacks/registry.rs`. -/
def DrawbackId.to_key_index : DrawbackId → Nat
  | .none => 0
  | .noCastling => 1
  | .pawnPushOneOnly => 2
  | .blockRandomFile => 3

/-- `NoCastling::filter_pseudo_legal_moves` from `drawbacks/no_castling.rs`:
drop every `Move::Castle { .. }`. -/
def noCastling_filter_pseudo_legal_moves (_position : Position) (moves : List Move)
    (_rng_outcome : Option Nat) : List Move :=
  moves.filter (fun mv => ! mv.isCastle)

/-- `PawnPushOneOnly::filter_pseudo_legal_moves` from `drawbacks/pawn_push_one.rs`:
drop two-square pawn advances. -/
def pawnPushOne_filter_pseudo_legal_moves (_position : Position) (moves : List Move)
    (_rng_outcome : Option Nat) : List Move :=
  moves.filter (fun mv =>
    match mv with
    | .normal role f _ t _ =>
        if role = Role.pawn then
          decide (((t.val / 8 : Int) - (f.val / 8 : Int)).natAbs ≠ 2)
        else true
    | _ => true)

/-- `BlockRandomFile::filter_pseudo_legal_moves` from
`drawbacks/block_random_file.rs`: given an outcome 0..7, drop every move
whose destination lies on that file; an absent or invalid outcome leaves
the list unchanged. -/
def blockRandomFile_filter_pseudo_legal_moves (_position : Position) (moves : List Move)
    (rng_outcome : Option Nat) : List Move :=
  match rng_outcome with
  | Option.some blocked_file_index =>
      if blocked_file_index < 8 then
        moves.filter (fun mv => decide (fileOf mv.toSq ≠ blocked_file_index))
      else
        moves
  | Option.none => moves

/-- Registry dispatch: the filter of the rule registered under an id.
`DrawbackId::None` has no registered rule, hence filters nothing
(the identity rule of the spec). -/
def DrawbackId.filterMoves : DrawbackId → Position → List Move → Option Nat → List Move
  | .none, _, moves, _ => moves
  | .noCastling, p, moves, o => noCastling_filter_pseudo_legal_moves p moves o
  | .pawnPushOneOnly, p, moves, o => pawnPushOne_filter_pseudo_legal_moves p moves o
  | .blockRandomFile, p, moves, o => blockRandomFile_filter_pseudo_legal_moves p moves o

/-- `DrawbackSetting` from `config.rs`. -/
structure DrawbackSetting where
  name : Option String
  index : Option Nat

/-- `GameConfig::resolve_drawback_id` from `config.rs`. -/
def resolve_drawback_id (setting : DrawbackSetting) : DrawbackId :=
  if setting.name.isNone ∧ setting.index.isNone then
    DrawbackId.none
  else
    match setting.name with
    | Option.some name =>
        match name with
        | "No Castling" => DrawbackId.noCastling
        | "Pawns Advance One" => DrawbackId.pawnPushOneOnly
        | "Random File Blocked" => DrawbackId.blockRandomFile
        | _ => DrawbackId.none
    | Option.none =>
        match setting.index with
        | Option.some 1 => DrawbackId.noCastling
        | Option.some 2 => DrawbackId.pawnPushOneOnly
        | Option.some 3 => DrawbackId.blockRandomFile
        | Option.some _ => DrawbackId.none
        | Option.none => DrawbackId.none

/-! ### Position evaluator (`ai/evaluation.rs`) -/

/-- Base midgame/endgame piece values, `PIECE_VALUES` in `ai/evaluation.rs`. -/
def PIECE_VALUES : Role → Int × Int
  | .pawn => (94, 100)
  | .knight => (337, 281)
  | .bishop => (365, 297)
  | .rook => (479, 512)
  | .queen => (1025, 929)
  | .king => (10000, 10000)

/-- Phase weights, `PIECE_PHASE_VALUES` in `ai/evaluation.rs`. -/
def PIECE_PHASE_VALUES : Role → Nat
  | .pawn => 0
  | .knight => 1
  | .bishop => 1
  | .rook => 2
  | .queen => 4
  | .king => 0

def MG_PAWN_PST : List Int :=
  [0, 0, 0, 0, 0, 0, 0, 0,
   50, 50, 50, 50, 50, 50, 50, 50,
   10, 10, 20, 35, 35, 20, 10, 10,
   10, 15, 30, 70, 70, 30, 15, 10,
   5, 10, 25, 55, 55, 25, 10, 5,
   5, 5, 5, 0, 0, 5, 5, 5,
   0, 0, 0, -30, -30, 0, 0, 0,
   0, 0, 0, 0, 0, 0, 0, 0]

def MG_KNIGHT_PST : List Int :=
  [-80, -50, -30, -30, -30, -30, -50, -80,
   -50, -20, 0, 0, 0, 0, -20, -50,
   -30, 0, 15, 20, 20, 15, 0, -30,
   -30, 5, 20, 25, 25, 20, 5, -30,
   -30, 0, 15, 20, 20, 15, 0, -30,
   -30, 5, 15, 15, 15, 15, 5, -30,
   -50, -20, 0, 5, 5, 0, -20, -50,
   -80, -50, -30, -30, -30, -30, -50, -80]

def MG_BISHOP_PST : List Int :=
  [-20, -10, -10, -10, -10, -10, -10, -20,
   -10, 0, 0, 0, 0, 0, 0, -10,
   -10, 0, 5, 10, 10, 5, 0, -10,
   -10, 5, 5, 10, 10, 5, 5, -10,
   -10, 0, 10, 10, 10, 10, 0, -10,
   -10, 10, 10, 10, 10, 10, 10, -10,
   -10, 15, 0, 0, 0, 0, 15, -10,
   -20, -10, -10, -10, -10, -10, -10, -20]

def MG_ROOK_PST : List Int :=
  [40, 40, 40, 0, 0, 40, 40, 40,
   5, 15, 15, 50, 50, 15, 50, 5,
   5, 0, 0, 0, 0, 0, 0, 5,
   5, 0, 0, 0, 0, 0, 0, 5,
   5, 0, 0, 0, 0, 0, 0, 5,
   5, 0, 0, 0, 0, 0, 0, 5,
   5, 0, 0, 0, 0, 0, 0, 5,
   0, -5, 5, 5, 5, 10, -5, 0]

def MG_QUEEN_PST : List Int :=
  [-20, -10, -10, -5, -5, -10, -10, -20,
   -10, 0, 0, 0, 0, 0, 0, -10,
   -10, 0, 5, 5, 5, 5, 0, -10,
   -5, 0, 5, 5, 5, 5, 0, -5,
   0, 0, 5, 5, 5, 5, 0, -5,
   -10, 5, 5, 5, 5, 5, 0, -10,
   -10, 0, 5, -5, -5, 0, 0, -10,
   -20, -10, -10, -2, -5, -10, -10, -20]

def MG_KING_PST : List Int :=
  [-120, -120, -120, -120, -120, -120, -120, -120,
   -100, -100, -100, -100, -100, -100, -100, -100,
   -80, -80, -80, -80, -80, -80, -80, -80,
   -70, -70, -70, -70, -70, -70, -70, -70,
   -60, -60, -60, -60, -60, -60, -60, -60,
   -40, -40, -40, -40, -40, -40, -40, -40,
   0, 0, -10, -30, -30, -10, 0, 0,
   20, 50, 10, 0, 0, 10, 50, 20]

def EG_PAWN_PST : List Int :=
  [0, 0, 0, 0, 0, 0, 0, 0,
   400, 400, 400, 400, 400, 400, 400, 400,
   50, 55, 50, 50, 50, 50, 55, 50,
   30, 35, 30, 30, 30, 30, 35, 30,
   25, 20, 20, 20, 20, 20, 20, 25,
   15, 10, 10, 10, 10, 10, 10, 15,
   10, 10, 10, 10, 10, 10, 10, 10,
   0, 0, 0, 0, 0, 0, 0, 0]

def EG_KNIGHT_PST : List Int :=
  [-50, -40, -30, -30, -30, -30, -40, -50,
   -40, -20, 0, 0, 0, 0, -20, -40,
   -30, 0, 10, 15, 15, 10, 0, -30,
   -30, 10, 15, 20, 20, 15, 10, -30,
   -30, 0, 15, 20, 20, 15, 0, -30,
   -30, 5, 15, 15, 15, 15, 5, -30,
   -40, -20, 0, 5, 5, 0, -20, -40,
   -50, -40, -30, -30, -30, -30, -40, -50]

def EG_BISHOP_PST : List Int :=
  [-20, -10, -10, -10, -10, -10, -10, -20,
   -10, 0, 0, 0, 0, 0, 0, -10,
   -10, 0, 5, 10, 10, 5, 0, -10,
   -10, 5, 5, 10, 10, 5, 5, -10,
   -10, 0, 10, 10, 10, 10, 0, -10,
   -10, 10, 10, 10, 10, 10, 10, -10,
   -10, 10, 0, 0, 0, 0, 10, -10,
   -20, -10, -10, -10, -10, -10, -10, -20]

def EG_ROOK_PST : List Int :=
  [40, 40, 40, 0, 0, 40, 40, 40,
   5, 10, 10, 10, 10, 10, 10, 5,
   -5, 0, 0, 0, 0, 0, 0, -5,
   -5, 0, 0, 0, 0, 0, 0, -5,
   -5, 0, 0, 0, 0, 0, 0, -5,
   -5, 0, 0, 0, 0, 0, 0, -5,
   -5, 0, 0, 0, 0, 0, 0, -5,
   0, 0, 10, 5, 5, 10, 0, 0]

def EG_QUEEN_PST : List Int :=
  [-20, -10, -10, -5, -5, -10, -10, -20,
   -10, 0, 0, 0, 0, 0, 0, -10,
   -10, 0, 5, 5, 5, 5, 0, -10,
   -5, 0, 5, 5, 5, 5, 0, -5,
   0, 0, 5, 5, 5, 5, 0, -5,
   -10, 5, 5, 5, 5, 5, 0, -10,
   -10, 0, 5, 0, 0, 0, 0, -10,
   -20, -10, -10, -5, -5, -10, -10, -20]

def EG_KING_PST : List Int :=
  [-50, -30, -30, -30, -30, -30, -30, -50,
   -30, -20, -20, -20, -20, -20, -20, -30,
   -30, -10, -5, 0, 0, -5, -10, -30,
   -30, -10, 0, 10, 10, 0, -10, -30,
   -30, -10, 0, 10, 10, 0, -10, -30,
   -30, -10, -5, 0, 0, -5, -10, -30,
   -30, -20, -20, -20, -20, -20, -20, -30,
   -50, -30, -30, -30, -30, -30, -30, -50]

/-- The white midgame table for a role (`PieceSquareTables::new`). -/
def white_mg : Role → List Int
  | .pawn => MG_PAWN_PST
  | .knight => MG_KNIGHT_PST
  | .bishop => MG_BISHOP_PST
  | .rook => MG_ROOK_PST
  | .queen => MG_QUEEN_PST
  | .king => MG_KING_PST

/-- The white endgame table for a role (`PieceSquareTables::new`). -/
def white_eg : Role → List Int
  | .pawn => EG_PAWN_PST
  | .knight => EG_KNIGHT_PST
  | .bishop => EG_BISHOP_PST
  | .rook => EG_ROOK_PST
  | .queen => EG_QUEEN_PST
  | .king => EG_KING_PST

/-- Vertical mirror of a square index: same file, rank 7 - rank, as in
`PieceSquareTables::new` (`mirror_rank * 8 + file`). -/
def mirrorSq (sq : Square) : Square :=
  ⟨(7 - sq.val / 8) * 8 + sq.val % 8, by
    have hk := sq.isLt
    have h1 : sq.val / 8 ≤ 7 := by omega
    have h2 : sq.val % 8 < 8 := Nat.mod_lt _ (by omega)
    omega⟩

/-- Truncation toward zero, the semantics of Rust's `as i32` cast applied
to a (here exactly represented) f64 value. -/
def truncQ (q : ℚ) : Int :=
  if q < 0 then -Int.floor (-q) else Int.floor q

/-- The midgame table entry for a piece on a square: the white table for
white pieces, and the vertically mirrored, negated white table for black
pieces (exactly how `PieceSquareTables::new` builds the black tables). -/
def mg_table_value (pc : Piece) (sq : Square) : Int :=
  match pc.color with
  | .white => (white_mg pc.role).getD sq.val 0
  | .black => -((white_mg pc.role).getD (mirrorSq sq).val 0)

/-- The endgame table entry for a piece on a square. -/
def eg_table_value (pc : Piece) (sq : Square) : Int :=
  match pc.color with
  | .white => (white_eg pc.role).getD sq.val 0
  | .black => -((white_eg pc.role).getD (mirrorSq sq).val 0)

/-- `PieceSquareTables::get_piece_square_value`: table lookup interpolated
between midgame and endgame by the phase and cast to integer. -/
def get_piece_square_value (pc : Piece) (sq : Square) (is_endgame : ℚ) : Int :=
  truncQ ((mg_table_value pc sq : ℚ) * (1 - is_endgame) +
    (eg_table_value pc sq : ℚ) * is_endgame)

/-- The enumeration order of `Square::ALL`. -/
def allSquares : List Square := List.finRange 64

/-- The raw phase accumulator of `compute_game_phase`: the sum of the
per-role phase weights over the board. -/
def phaseSum (board : Position) : Nat :=
  (allSquares.map (fun sq =>
    match board.pieceAt sq with
    | Option.some pc => PIECE_PHASE_VALUES pc.role
    | Option.none => 0)).sum

/-- `compute_game_phase` from `ai/evaluation.rs`: sum the per-role phase
weights over the board, cap at 24, normalize, and invert so that 1 is
the endgame. -/
def compute_game_phase (board : Position) : ℚ :=
  1 - min ((phaseSum board : ℚ)) 24 / 24

/-- The phase-interpolated base value of a role
(the `piece_value` computation in `evaluate_position_with_pst`). -/
def base_piece_value (role : Role) (endgame_phase : ℚ) : Int :=
  truncQ (((PIECE_VALUES role).1 : ℚ) * (1 - endgame_phase) +
    ((PIECE_VALUES role).2 : ℚ) * endgame_phase)

/-- `evaluate_position_with_pst` from `ai/evaluation.rs`: for every piece,
base value plus piece-square bonus, positive for the side to move and
negative for the opponent. -/
def evaluate_position_with_pst (board : Position) : Int :=
  (allSquares.map (fun sq =>
    match board.pieceAt sq with
    | Option.none => (0 : Int)
    | Option.some pc =>
        (if pc.color = board.turn then 1 else -1) *
          (base_piece_value pc.role (compute_game_phase board) +
            get_piece_square_value pc sq (compute_game_phase board)))).sum

/-- The base-material part of `evaluate_position_with_pst`: the signed sum
of phase-interpolated base piece values alone, from the mover's
perspective. -/
def base_material_balance (board : Position) : Int :=
  (allSquares.map (fun sq =>
    match board.pieceAt sq with
    | Option.none => (0 : Int)
    | Option.some pc =>
        (if pc.color = board.turn then 1 else -1) *
          base_piece_value pc.role (compute_game_phase board))).sum

/-- The piece-square part of `evaluate_position_with_pst`: the signed sum
of interpolated piece-square bonuses alone, from the mover's
perspective. -/
def pstBalance (board : Position) : Int :=
  (allSquares.map (fun sq =>
    match board.pieceAt sq with
    | Option.none => (0 : Int)
    | Option.some pc =>
        (if pc.color = board.turn then 1 else -1) *
          get_piece_square_value pc sq (compute_game_phase board))).sum

/-- The transformation of claim C4: mirror the board vertically, swap every
piece's color, and flip the side to move (castling rights swapped between
the sides, en-passant file kept; neither is read by the evaluator). -/
def mirrorSwapFlip (board : Position) : Position where
  pieceAt := fun sq => (board.pieceAt (mirrorSq sq)).map (fun pc => ⟨pc.color.flip, pc.role⟩)
  turn := board.turn.flip
  castleWK := board.castleBK
  castleWQ := board.castleBQ
  castleBK := board.castleWK
  castleBQ := board.castleWQ
  epFile := board.epFile

/-- Remove the piece on a square (used to state phase monotonicity). -/
def removePieceAt (board : Position) (sq : Square) : Position :=
  { board with pieceAt := Function.update board.pieceAt sq Option.none }

/-! ### Position hasher (`ai/zobrist.rs`)

The key table is produced by `StdRng::seed_from_u64(42664)` followed by a
stream of `rng.gen::<u64>()` calls.  `StdRng` is the ChaCha12 generator of
the `rand` crate; `seed_from_u64` fills the 32-byte seed with a PCG32
(XSH-RR) stream, and each `gen::<u64>()` reads two consecutive 32-bit
little-endian keystream words.  Both algorithms are reproduced here
exactly on `Nat` with explicit `% 2^32` / `% 2^64` reductions; the ChaCha
core below is validated against the RFC 8439 block-function test vector
(with 10 double rounds) in the theorem section. -/

def M32 : Nat := 2 ^ 32

def M64 : Nat := 2 ^ 64

/-- 32-bit rotate left. -/
def rotl32 (x r : Nat) : Nat := ((x <<< r) % M32) ||| (x >>> (32 - r))

/-- 32-bit rotate right (the PCG32 output rotation). -/
def rotr32 (x r : Nat) : Nat := ((x >>> r) ||| ((x <<< ((32 - r) % 32)) % M32)) % M32

/-- One ChaCha quarter round on state cells `ia ib ic id`. -/
def qround (s : List Nat) (ia ib ic id : Nat) : List Nat :=
  let a := s.getD ia 0
  let b := s.getD ib 0
  let c := s.getD ic 0
  let d := s.getD id 0
  let a := (a + b) % M32
  let d := rotl32 (d ^^^ a) 16
  let c := (c + d) % M32
  let b := rotl32 (b ^^^ c) 12
  let a := (a + b) % M32
  let d := rotl32 (d ^^^ a) 8
  let c := (c + d) % M32
  let b := rotl32 (b ^^^ c) 7
  (((s.set ia a).set ib b).set ic c).set id d

/-- A ChaCha double round: a column round followed by a diagonal round. -/
def chachaDoubleRound (s : List Nat) : List Nat :=
  let s := qround s 0 4 8 12
  let s := qround s 1 5 9 13
  let s := qround s 2 6 10 14
  let s := qround s 3 7 11 15
  let s := qround s 0 5 10 15
  let s := qround s 1 6 11 12
  let s := qround s 2 7 8 13
  qround s 3 4 9 14

def chachaDoubleRounds : Nat → List Nat → List Nat
  | 0, s => s
  | n + 1, s => chachaDoubleRounds n (chachaDoubleRound s)

/-- The ChaCha block function: constants, 8 key words, then the 64-bit
block counter and 64-bit stream (both little-endian words, the stream is
0 for `ChaCha12Rng::from_seed`), permuted and added back to the input. -/
def chachaBlock (dblRounds : Nat) (key : List Nat) (d : List Nat) : List Nat :=
  let init := [0x61707865, 0x3320646e, 0x79622d32, 0x6b206574] ++ key ++ d
  let dome := chachaDoubleRounds dblRounds init
  List.zipWith (fun a b => (a + b) % M32) init dome

/-- One step of the PCG32 LCG used by `SeedableRng::seed_from_u64`. -/
def pcgAdvance (state : Nat) : Nat :=
  (state * 6364136223846793005 + 11634580027462260723) % M64

/-- The PCG32 XSH-RR output function. -/
def pcgOutput (state : Nat) : Nat :=
  let xorshifted := (((state >>> 18) ^^^ state) >>> 27) % M32
  let rot := state >>> 59
  rotr32 xorshifted rot

/-- The PCG state after `n + 1` advances from the fixed Zobrist seed
42664 (the state is advanced before each output). -/
def pcgState (n : Nat) : Nat := Nat.rec (pcgAdvance 42664) (fun _ ih => pcgAdvance ih) n

/-- The ChaCha12 key derived from seed 42664: eight little-endian 32-bit
words, each one PCG32 output. -/
def stdKey : List Nat := (List.range 8).map (fun i => pcgOutput (pcgState i))

/-- Word `k` of the ChaCha12 keystream (block `k / 16`, cell `k % 16`). -/
def keystreamWord (k : Nat) : Nat :=
  (chachaBlock 6 stdKey [(k / 16) % M32, (k / 16) / M32 % M32, 0, 0]).getD (k % 16) 0

/-- Output `m` of the `rng.gen::<u64>()` stream of
`StdRng::seed_from_u64(42664)`: keystream words `2m` (low) and
`2m + 1` (high). -/
def stdRngU64 (m : Nat) : Nat := keystreamWord (2 * m) + keystreamWord (2 * m + 1) * M32

/-- `MAX_DRAWBACK_INDICES` from `ai/zobrist.rs`. -/
def MAX_DRAWBACK_INDICES : Nat := 1024

/-- `MAX_RNG_OUTCOMES` from `ai/zobrist.rs`. -/
def MAX_RNG_OUTCOMES : Nat := 256

/-- The `ZobristKeys` table, with the arrays represented as functions of
the index. -/
structure ZobristKeys where
  pieces : Nat → Nat → Nat
  turnKey : Nat
  castling : Nat → Nat
  en_passant : Nat → Nat
  drawbacks : Nat → Nat
  rng_outcomes : Nat → Nat

/-- `initialize_zobrist_keys` from `ai/zobrist.rs`: the consecutive
`rng.gen()` draws fill, in order, the 12 × 64 piece keys, the turn key,
4 castling keys, 8 en-passant keys, `MAX_DRAWBACK_INDICES` drawback keys
and `MAX_RNG_OUTCOMES + 1` outcome keys. -/
def initZobristKeys : ZobristKeys where
  pieces := fun piece_type square => stdRngU64 (piece_type * 64 + square)
  turnKey := stdRngU64 768
  castling := fun i => stdRngU64 (769 + i)
  en_passant := fun i => stdRngU64 (773 + i)
  drawbacks := fun i => stdRngU64 (781 + i)
  rng_outcomes := fun i => stdRngU64 (1805 + i)

/-- `piece_to_index` from `ai/zobrist.rs`. -/
def piece_to_index (role : Role) (color : Color) : Nat :=
  (match color with
   | .white => 0
   | .black => 6) +
  (match role with
   | .pawn => 0
   | .knight => 1
   | .bishop => 2
   | .rook => 3
   | .queen => 4
   | .king => 5)

/-- The hash-relevant game state (`GameState` in `game_logic/state.rs`);
`status`, `zobrist_hash` and `board_flipped` are carried along but never
read by the hasher. -/
structure GameStateZ where
  board : Position
  current_player_turn : Color
  statusOngoing : Bool
  white_drawback : DrawbackId
  black_drawback : DrawbackId
  current_turn_rng_outcome : Option Nat
  zobrist_hash : Nat
  board_flipped : Bool

/-- `GameState::get_current_player_drawback_id`. -/
def GameStateZ.get_current_player_drawback_id (gs : GameStateZ) : DrawbackId :=
  match gs.current_player_turn with
  | .white => gs.white_drawback
  | .black => gs.black_drawback

/-- `calculate_zobrist_hash` from `ai/zobrist.rs`.  Each conditional
`hash ^= key` of the source is rendered as an unconditional XOR with
`if condition then key else 0` (`x ^^^ 0 = x`). -/
def calculate_zobrist_hash (gs : GameStateZ) (keys : ZobristKeys) : Nat :=
  let h0 := (allSquares.map (fun sq =>
    match gs.board.pieceAt sq with
    | Option.some pc => keys.pieces (piece_to_index pc.role pc.color) sq.val
    | Option.none => 0)).foldl (fun h k => h ^^^ k) 0
  let h1 := h0 ^^^ (if gs.current_player_turn = Color.black then keys.turnKey else 0)
  let h2 := h1 ^^^ (if gs.board.castleWK then keys.castling 0 else 0)
  let h3 := h2 ^^^ (if gs.board.castleWQ then keys.castling 1 else 0)
  let h4 := h3 ^^^ (if gs.board.castleBK then keys.castling 2 else 0)
  let h5 := h4 ^^^ (if gs.board.castleBQ then keys.castling 3 else 0)
  let h6 := h5 ^^^ (match gs.board.epFile with
    | Option.some f => keys.en_passant f.val
    | Option.none => 0)
  let h7 := h6 ^^^ keys.drawbacks (gs.get_current_player_drawback_id.to_key_index % MAX_DRAWBACK_INDICES)
  h7 ^^^ (match gs.current_turn_rng_outcome with
    | Option.some outcome => keys.rng_outcomes (outcome % (MAX_RNG_OUTCOMES + 1))
    | Option.none => 0)

/-- The state with only the side to move flipped. -/
def flipTurnState (gs : GameStateZ) : GameStateZ :=
  { gs with current_player_turn := gs.current_player_turn.flip }

/-! ### Move search (`ai/mcts.rs`)

The chess rule primitive (shakmaty) is an external collaborator; it is
modelled as a record of functions.  Randomness (`thread_rng`) is modelled
as a stream `rng : Nat → Nat` read at an advancing cursor, with
`gen_range(0..n)` taking the stream value modulo `n`; the wall-clock
budget check is modelled as a predicate on the iteration counter; the
floating transcendental `1.4 * sqrt(ln(parent) / visits)` exploration
term is an abstract parameter `explTerm`. -/

/-- Terminal outcome of a position, shakmaty's `Outcome`. -/
inductive GameOutcome where
  | decisive (winner : Color)
  | draw
deriving DecidableEq, Repr

/-- The external chess primitive consumed by the search. -/
structure ChessOracle where
  legal_moves : Position → List Move
  play_unchecked : Position → Move → Position
  is_check : Position → Bool
  outcome : Position → Option GameOutcome
  is_checkmate : Position → Bool

/-- `gen_range(0..n)` on the modelled RNG stream. -/
def genRange (rng : Nat → Nat) (cursor n : Nat) : Nat × Nat :=
  (rng cursor % n, cursor + 1)

/-- `slice::choose`: a uniformly chosen element of a non-empty list,
`None` on an empty one. -/
def chooseList (rng : Nat → Nat) (cursor : Nat) (l : List α) : Option α × Nat :=
  if h : 0 < l.length then
    (Option.some (l.get ⟨rng cursor % l.length, Nat.mod_lt _ h⟩), cursor + 1)
  else
    (Option.none, cursor)

/-- Insert into a descending-sorted list after all entries that may
precede `x` (stable insertion). -/
def sortInsert (le : α → α → Bool) (x : α) : List α → List α
  | [] => [x]
  | y :: ys => if le y x then y :: sortInsert le x ys else x :: y :: ys

/-- Stable sort with respect to `le` (the semantics of `Vec::sort_by`,
which is a stable sort; stable-sorted output is unique, so the algorithm
choice is immaterial). -/
def sortStable (le : α → α → Bool) (l : List α) : List α :=
  l.foldl (fun acc x => sortInsert le x acc) []

/-- `is_king_capture` from `ai/mcts.rs`. -/
def is_king_capture (board : Position) (m : Move) : Bool :=
  match board.pieceAt m.toSq with
  | Option.some piece => decide (piece.role = Role.king)
  | Option.none => false

/-- `get_capture_value` from `ai/mcts.rs`: static value of the captured
piece, with en passant detected as a pawn changing file onto an empty
square. -/
def get_capture_value (board : Position) (m : Move) : Int :=
  match board.pieceAt m.toSq with
  | Option.some piece =>
      match piece.role with
      | .pawn => 100
      | .knight => 320
      | .bishop => 330
      | .rook => 500
      | .queen => 900
      | .king => 20000
  | Option.none =>
      match m.fromSq with
      | Option.some from_square =>
          match board.pieceAt from_square with
          | Option.some piece =>
              if piece.role = Role.pawn ∧ fileOf from_square ≠ fileOf m.toSq then 100 else 0
          | Option.none => 0
      | Option.none => 0

/-- `AiGameStateContext` from `ai/plugin.rs`. -/
structure AiGameStateContext where
  board : Position
  player_turn : Color
  player_drawback : DrawbackId
  opponent_drawback : DrawbackId
  current_hash : Nat
  depth : Nat
  check_quietness : Bool
  quiescence_depth : Nat
  time_limit_ms : Nat

/-- `find_best_move_mcts` from `ai/mcts.rs` (the heuristic scorer): score
every legal move, sort descending, pick uniformly among the top scorers,
and re-validate against the legal list.  The `iterations` argument is
accepted and unused, as in the source. -/
def find_best_move_mcts (o : ChessOracle) (ctx : AiGameStateContext) (_iterations : Nat)
    (rng : Nat → Nat) (cursor : Nat) : Option Move :=
  let board_copy := ctx.board
  let legal_moves_vec := o.legal_moves board_copy
  if legal_moves_vec.isEmpty then Option.none
  else
    let in_check := o.is_check board_copy
    let move_scores := legal_moves_vec.map (fun m =>
      let capture_value := get_capture_value board_copy m
      let capturing_king := is_king_capture board_copy m
      let test_board := o.play_unchecked board_copy m
      let score := capture_value
      let score := score + (if capturing_king then 20000 else 0)
      let opponent_responses := o.legal_moves test_board
      let opponent_can_capture_king :=
        opponent_responses.any (fun om => is_king_capture test_board om)
      let score := score + (if opponent_can_capture_king then -15000 else 0)
      let score := score + (if o.is_check test_board then
        50 + max (20 * (20 - ((o.legal_moves test_board).length : Int))) 0 else 0)
      let score := score + (if in_check then 300 else 0)
      let score := score + evaluate_position_with_pst test_board
      (m, score))
    let sorted := sortStable (fun a b => decide (b.2 ≤ a.2)) move_scores
    match sorted.head? with
    | Option.none => (chooseList rng cursor legal_moves_vec).1
    | Option.some hd =>
        let best_score := hd.2
        let best_moves := (sorted.filter (fun p => decide (p.2 = best_score))).map (fun p => p.1)
        let (selected_move, c1) := chooseList rng cursor best_moves
        match selected_move with
        | Option.some mv =>
            if legal_moves_vec.contains mv then Option.some mv
            else (chooseList rng c1 legal_moves_vec).1
        | Option.none => Option.none

/-- `MCTSNode` from `ai/mcts.rs`. -/
inductive MCTSNode where
  | mk (visits : Nat) (score : ℚ) (position : Position) (move_made : Option Move)
      (children : List MCTSNode) (unexplored_moves : List Move) (current_hash : Nat)
      (has_expanded : Bool)

def MCTSNode.visits : MCTSNode → Nat
  | .mk v _ _ _ _ _ _ _ => v

def MCTSNode.score : MCTSNode → ℚ
  | .mk _ s _ _ _ _ _ _ => s

def MCTSNode.position : MCTSNode → Position
  | .mk _ _ p _ _ _ _ _ => p

def MCTSNode.move_made : MCTSNode → Option Move
  | .mk _ _ _ m _ _ _ _ => m

def MCTSNode.children : MCTSNode → List MCTSNode
  | .mk _ _ _ _ c _ _ _ => c

def MCTSNode.unexplored_moves : MCTSNode → List Move
  | .mk _ _ _ _ _ u _ _ => u

def MCTSNode.has_expanded : MCTSNode → Bool
  | .mk _ _ _ _ _ _ _ he => he

/-- `MCTSNode::new`. -/
def MCTSNode.newNode (position : Position) (move_made : Option Move) (current_hash : Nat) :
    MCTSNode :=
  .mk 0 0 position move_made [] [] current_hash false

instance : Inhabited MCTSNode :=
  ⟨MCTSNode.newNode
    { pieceAt := fun _ => Option.none, turn := Color.white, castleWK := false,
      castleWQ := false, castleBK := false, castleBQ := false, epFile := Option.none }
    Option.none 0⟩

/-- `MCTSNode::expand`: fill the unexplored-move list from the position's
legal moves, once.  The drawback and color arguments are accepted and
unused, as in the source. -/
def MCTSNode.expand (n : MCTSNode) (_player_drawback _opponent_drawback : DrawbackId)
    (_turn_color : Color) (o : ChessOracle) : MCTSNode :=
  match n with
  | .mk v s p m c u h he =>
      if he then .mk v s p m c u h he
      else .mk v s p m c (o.legal_moves p) h true

/-- Add a simulation result: one more visit and the score. -/
def MCTSNode.addVisitScore (n : MCTSNode) (sc : ℚ) : MCTSNode :=
  match n with
  | .mk v s p m c u h he => .mk (v + 1) (s + sc) p m c u h he

/-- Rewrite the child at an index in place. -/
def MCTSNode.modifyChild (n : MCTSNode) (i : Nat) (f : MCTSNode → MCTSNode) : MCTSNode :=
  match n with
  | .mk v s p m c u h he => .mk v s p m (List.modify f i c) u h he

/-- `Vec::swap_remove`: replace index `i` with the last element and drop
the last slot. -/
def swapRemove [Inhabited α] (l : List α) (i : Nat) : List α :=
  (l.set i (l.getD (l.length - 1) default)).take (l.length - 1)

/-- The net node update of the expansion phase: remove the chosen index
from the unexplored list (`swap_remove`) and append the new child. -/
def MCTSNode.expandInsert (n : MCTSNode) (i : Nat) (child : MCTSNode) : MCTSNode :=
  match n with
  | .mk v s p m c u h he => .mk v s p m (c ++ [child]) (swapRemove u i) h he

/-- The node reached by an index path from `n`. -/
def MCTSNode.getAt : MCTSNode → List Nat → MCTSNode
  | n, [] => n
  | n, i :: rest => MCTSNode.getAt (n.children.getD i default) rest

/-- Apply `f` to the node at an index path. -/
def MCTSNode.updateAt : MCTSNode → List Nat → (MCTSNode → MCTSNode) → MCTSNode
  | n, [], f => f n
  | n, i :: rest, f => n.modifyChild i (fun c => MCTSNode.updateAt c rest f)

/-- The backpropagation phase: add the score and a visit to the node and
to every node along the path. -/
def MCTSNode.backprop : MCTSNode → List Nat → ℚ → MCTSNode
  | n, [], sc => n.addVisitScore sc
  | n, i :: rest, sc => (n.addVisitScore sc).modifyChild i (fun c => MCTSNode.backprop c rest sc)

/-- The accumulation loop of `MCTSNode::best_child`: carry the best score
seen (`none` is the initial `f64::NEG_INFINITY`) and the indices
achieving it. -/
def bcFold : List (Nat × ℚ) → Option ℚ × List Nat → Option ℚ × List Nat
  | [], st => st
  | (i, sc) :: rest, (best, idxs) =>
      match best with
      | Option.none => bcFold rest (Option.some sc, [i])
      | Option.some b =>
          if b < sc then bcFold rest (Option.some sc, [i])
          else if sc = b then bcFold rest (Option.some b, idxs ++ [i])
          else bcFold rest (Option.some b, idxs)

/-- `MCTSNode::best_child`: the child maximizing average score plus the
optional exploration term, ties broken uniformly. -/
def MCTSNode.best_child (n : MCTSNode) (exploration : Bool) (explTerm : Nat → Nat → ℚ)
    (rng : Nat → Nat) (cursor : Nat) : Option Nat × Nat :=
  if n.children.isEmpty then (Option.none, cursor)
  else
    let scored := n.children.enum.map (fun p =>
      (p.1, p.2.score / (p.2.visits : ℚ) + (if exploration then explTerm n.visits p.2.visits else 0)))
    let best_indices := (bcFold scored (Option.none, [])).2
    if best_indices.isEmpty then (Option.none, cursor)
    else if 1 < best_indices.length then
      let (r, c2) := genRange rng cursor best_indices.length
      (Option.some (best_indices.getD r 0), c2)
    else (Option.some (best_indices.getD 0 0), cursor)

/-- `evaluate_position` from `ai/mcts.rs` (the rollout evaluator):
terminal outcomes score 1 / 0.5 / 0, a reached checkmate 1, check 0.2,
otherwise the material sum shifted by 40 and clamped into [0, 80],
normalized by 80.  The drawback arguments are accepted and unused, as in
the source. -/
def mcts_evaluate_position (o : ChessOracle) (position : Position)
    (_player_drawback _opponent_drawback : DrawbackId) (player_is_white : Bool) : ℚ :=
  match o.outcome position with
  | Option.some (.decisive winner) =>
      if (winner = Color.white ∧ player_is_white = true) ∨
          (winner = Color.black ∧ player_is_white = false) then 1 else 0
  | Option.some .draw => 1 / 2
  | Option.none =>
    if o.is_checkmate position then 1
    else if o.is_check position then 1 / 5
    else
      let score : ℚ := (allSquares.map (fun sq =>
        match position.pieceAt sq with
        | Option.some piece =>
            let piece_value : ℚ :=
              match piece.role with
              | .pawn => 1
              | .knight => 3
              | .bishop => 3
              | .rook => 5
              | .queen => 9
              | .king => 0
            if (piece.color = Color.white ∧ player_is_white = true) ∨
                (piece.color = Color.black ∧ player_is_white = false) then piece_value
            else -piece_value
        | Option.none => 0)).sum
      let score_plus_offset := score + 40
      let clamped_low := if score_plus_offset < 0 then 0 else score_plus_offset
      let clamped_high := if 80 < clamped_low then 80 else clamped_low
      clamped_high / 80

/-- `is_position_quiet` from `ai/mcts.rs`. -/
def is_position_quiet (o : ChessOracle) (position : Position) : Bool :=
  if o.is_check position then false
  else !((o.legal_moves position).any (fun m => (position.pieceAt m.toSq).isSome))

/-- The simulation phase (`while depth < max_depth` in the source): the
fuel argument equals `max_depth - depth`, so fuel exhaustion is exactly
the loop guard.  Returns the final position, side to move and RNG
cursor. -/
def simLoop (o : ChessOracle) (check_quietness : Bool) (max_depth quiescence_depth : Nat)
    (rng : Nat → Nat) : Nat → Nat → Position → Color → Nat → Position × Color × Nat
  | 0, _depth, pos, turn, cursor => (pos, turn, cursor)
  | fuel + 1, depth, pos, turn, cursor =>
      if (o.outcome pos).isSome then (pos, turn, cursor)
      else if check_quietness && decide (0 < depth) && is_position_quiet o pos then
        (pos, turn, cursor)
      else
        let quiescence_extend :=
          decide (max_depth ≤ depth) && !(is_position_quiet o pos) &&
            decide (depth < max_depth + quiescence_depth)
        if !quiescence_extend && decide (max_depth ≤ depth) then (pos, turn, cursor)
        else
          let legal := o.legal_moves pos
          if legal.isEmpty then (pos, turn, cursor)
          else
            let (ri, c2) := genRange rng cursor legal.length
            let random_move := legal.getD ri default
            simLoop o check_quietness max_depth quiescence_depth rng fuel (depth + 1)
              (o.play_unchecked pos random_move) turn.flip c2

/-- The selection phase of `find_best_move_mcts_monte_carlo`: the source
loop inspects only the root before breaking, so the chosen path has at
most one element.  Returns the path and the RNG cursor. -/
def mcts_selection (root : MCTSNode) (explTerm : Nat → Nat → ℚ) (rng : Nat → Nat)
    (cursor : Nat) : List Nat × Nat :=
  if root.unexplored_moves.isEmpty && !root.children.isEmpty then
    match root.best_child true explTerm rng cursor with
    | (Option.some best_idx, c) => ([best_idx], c)
    | (Option.none, c) => (([] : List Nat), c)
  else (([] : List Nat), cursor)

/-- The expansion phase: if the node at the path was visited before and
has unexplored moves, pick one uniformly, remove it (`swap_remove`),
clone-and-apply, and append the unvisited child.  Returns the new tree,
the extended path and the RNG cursor. -/
def mcts_expansion (o : ChessOracle) (ctx : AiGameStateContext) (player_turn : Color)
    (rng : Nat → Nat) (root : MCTSNode) (path : List Nat) (cursor : Nat) :
    MCTSNode × List Nat × Nat :=
  let current := root.getAt path
  if !current.unexplored_moves.isEmpty && decide (0 < current.visits) then
    let random_index := (genRange rng cursor current.unexplored_moves.length).1
    let c := (genRange rng cursor current.unexplored_moves.length).2
    let new_move := current.unexplored_moves.getD random_index default
    let new_position := o.play_unchecked current.position new_move
    let next_color := if player_turn = Color.white then Color.black else Color.white
    let new_child := (MCTSNode.newNode new_position (Option.some new_move)
      ctx.current_hash).expand ctx.opponent_drawback ctx.player_drawback next_color o
    (root.updateAt path (fun cur => cur.expandInsert random_index new_child),
      path ++ [current.children.length], c)
  else (root, path, cursor)

/-- One iteration of `find_best_move_mcts_monte_carlo`: selection,
expansion, simulation and backpropagation. -/
def mcts_iteration (o : ChessOracle) (ctx : AiGameStateContext) (explTerm : Nat → Nat → ℚ)
    (player_turn : Color) (player_is_white : Bool) (rng : Nat → Nat) (root : MCTSNode)
    (cursor : Nat) : MCTSNode × Nat :=
  let sel := mcts_selection root explTerm rng cursor
  let exp := mcts_expansion o ctx player_turn rng root sel.1 sel.2
  let current2 := exp.1.getAt exp.2.1
  let sim_turn0 := if exp.2.1.length % 2 = 0 then player_turn else player_turn.flip
  let sim := simLoop o ctx.check_quietness ctx.depth ctx.quiescence_depth
    rng ctx.depth 0 current2.position sim_turn0 exp.2.2
  let cur_pd := if sim.2.1 = player_turn then ctx.player_drawback else ctx.opponent_drawback
  let cur_od := if sim.2.1 = player_turn then ctx.opponent_drawback else ctx.player_drawback
  let score := mcts_evaluate_position o sim.1 cur_pd cur_od player_is_white
  (exp.1.backprop exp.2.1 score, sim.2.2)

/-- The iteration loop: run up to `fuel` iterations, stopping early when
the clock predicate fires; returns the root, the number of completed
iterations and the RNG cursor. -/
def mcts_loop (o : ChessOracle) (ctx : AiGameStateContext) (explTerm : Nat → Nat → ℚ)
    (player_turn : Color) (player_is_white : Bool) (rng : Nat → Nat) (timeStop : Nat → Bool) :
    Nat → Nat → MCTSNode → Nat → Nat → MCTSNode × Nat × Nat
  | 0, _i, root, cursor, completed => (root, completed, cursor)
  | fuel + 1, i, root, cursor, completed =>
      if timeStop i then (root, completed, cursor)
      else
        let it := mcts_iteration o ctx explTerm player_turn player_is_white rng root cursor
        mcts_loop o ctx explTerm player_turn player_is_white rng timeStop fuel (i + 1) it.1 it.2
          (completed + 1)

/-- The final move selection of `find_best_move_mcts_monte_carlo`
(lines 521-537): best child with the exploration term disabled, else a
uniformly random unexplored root move, else `None`. -/
def mcts_final_choice (root : MCTSNode) (explTerm : Nat → Nat → ℚ) (rng : Nat → Nat)
    (cursor : Nat) : Option Move :=
  match root.best_child false explTerm rng cursor with
  | (Option.some best_child_idx, _) => (root.children.getD best_child_idx default).move_made
  | (Option.none, c2) =>
      if !root.unexplored_moves.isEmpty then
        let (ri, _) := genRange rng c2 root.unexplored_moves.length
        Option.some (root.unexplored_moves.getD ri default)
      else Option.none

/-- `find_best_move_mcts_monte_carlo` from `ai/mcts.rs`, instrumented to
also return the final root node and the completed iteration count. -/
def mcts_search (o : ChessOracle) (context : AiGameStateContext) (iterations : Nat)
    (explTerm : Nat → Nat → ℚ) (rng : Nat → Nat) (timeStop : Nat → Bool) :
    MCTSNode × Nat × Option Move :=
  let board_copy := context.board
  let player_turn := context.player_turn
  let player_is_white := decide (player_turn = Color.white)
  let root := (MCTSNode.newNode board_copy Option.none context.current_hash).expand
    context.player_drawback context.opponent_drawback player_turn o
  if root.unexplored_moves.isEmpty then (root, 0, Option.none)
  else if root.unexplored_moves.length = 1 then
    (root, 0, Option.some (root.unexplored_moves.getD 0 default))
  else
    let (root1, completed, c1) := mcts_loop o context explTerm player_turn player_is_white rng
      timeStop iterations 0 root 0 0
    (root1, completed, mcts_final_choice root1 explTerm rng c1)

/-- The move returned by `find_best_move_mcts_monte_carlo`. -/
def find_best_move_mcts_monte_carlo (o : ChessOracle) (context : AiGameStateContext)
    (iterations : Nat) (explTerm : Nat → Nat → ℚ) (rng : Nat → Nat) (timeStop : Nat → Bool) :
    Option Move :=
  (mcts_search o context iterations explTerm rng timeStop).2.2

/-! ### Concrete instances used by witnesses and counterexamples -/

/-- A square from a numeral. -/
def sq (n : Nat) (h : n < 64 := by omega) : Square := ⟨n, h⟩

/-- An empty board, white to move. -/
def emptyPos : Position where
  pieceAt := fun _ => Option.none
  turn := Color.white
  castleWK := false
  castleWQ := false
  castleBK := false
  castleBQ := false
  epFile := Option.none

/-- Kingside castle e1/h1. -/
def castleE1H1 : Move := Move.castle (sq 4) (sq 7)

/-- Knight b1-a3. -/
def knightB1A3 : Move := Move.normal Role.knight (sq 1) Option.none (sq 16) Option.none

/-- Knight g1-f3. -/
def knightG1F3 : Move := Move.normal Role.knight (sq 6) Option.none (sq 21) Option.none

/-- The zero RNG stream (every draw picks index 0). -/
def rngZ : Nat → Nat := fun _ => 0

/-- A clock that never fires. -/
def stopZ : Nat → Bool := fun _ => false

/-- A zero exploration term (the UCT term value is irrelevant in the
scenarios below: it is only ever compared between equal-visit
children). -/
def explTermZ : Nat → Nat → ℚ := fun _ _ => 0

/-- Rook a1-a2. -/
def rookA1A2 : Move := Move.normal Role.rook (sq 0) Option.none (sq 8) Option.none

/-- Schematic root position for the MCTS scenario: empty board, white to
move, en-passant tag `none` (the en-passant field doubles as an oracle
dispatch tag; it is read by nothing else in the search). -/
def pC3Root : Position where
  pieceAt := fun _ => Option.none
  turn := Color.white
  castleWK := false
  castleWQ := false
  castleBK := false
  castleBQ := false
  epFile := Option.none

/-- Position after the first root move: white rook a1 and white knight
b1 (material +8, rollout value 0.6). -/
def pC3A : Position where
  pieceAt := fun s =>
    if s.val = 0 then Option.some ⟨Color.white, Role.rook⟩
    else if s.val = 1 then Option.some ⟨Color.white, Role.knight⟩
    else Option.none
  turn := Color.black
  castleWK := false
  castleWQ := false
  castleBK := false
  castleBQ := false
  epFile := Option.some ⟨0, by omega⟩

/-- Position after the second root move: empty (rollout value 0.5). -/
def pC3B : Position where
  pieceAt := fun _ => Option.none
  turn := Color.black
  castleWK := false
  castleWQ := false
  castleBK := false
  castleBQ := false
  epFile := Option.some ⟨1, by omega⟩

/-- Position below `pC3A`: five black queens (rollout value 0.0). -/
def pC3C : Position where
  pieceAt := fun s =>
    if 56 ≤ s.val ∧ s.val ≤ 60 then Option.some ⟨Color.black, Role.queen⟩
    else Option.none
  turn := Color.white
  castleWK := false
  castleWQ := false
  castleBK := false
  castleBQ := false
  epFile := Option.some ⟨2, by omega⟩

/-- A schematic instance of the external chess primitive for the MCTS
scenario, dispatching on the en-passant tag: the root has two moves, the
position after the first has one reply, everything else is silent. -/
def oracleC3 : ChessOracle where
  legal_moves := fun p =>
    match p.epFile with
    | Option.none => [knightB1A3, knightG1F3]
    | Option.some f => if f.val = 0 then [rookA1A2] else []
  play_unchecked := fun p m =>
    match p.epFile with
    | Option.none => if m = knightB1A3 then pC3A else pC3B
    | Option.some _ => pC3C
  is_check := fun _ => false
  outcome := fun _ => Option.none
  is_checkmate := fun _ => false

/-- The search context for the MCTS scenario: rollout depth 0, so every
simulation immediately evaluates the reached node's position. -/
def ctxC3 : AiGameStateContext where
  board := pC3Root
  player_turn := Color.white
  player_drawback := DrawbackId.none
  opponent_drawback := DrawbackId.none
  current_hash := 0
  depth := 0
  check_quietness := false
  quiescence_depth := 0
  time_limit_ms := 0

/-- A root tree summarizing the MCTS scenario outcome: the first child
was visited twice with total score 3/5, the second once with score 1/2
(used to witness the final-selection characterization). -/
def demoChildA : MCTSNode :=
  MCTSNode.mk 2 (3/5) pC3A (Option.some knightB1A3) [] [] 0 true

/-- The second demo child. -/
def demoChildB : MCTSNode :=
  MCTSNode.mk 1 (1/2) pC3B (Option.some knightG1F3) [] [] 0 true

/-- The demo root. -/
def demoRoot : MCTSNode :=
  MCTSNode.mk 4 1 pC3Root Option.none [demoChildA, demoChildB] [] 0 true

/-- Board for the heuristic scenario of claim C1: white king e1, rook h1,
knight b1, black king e8, white to move (castling available). -/
def pos1 : Position where
  pieceAt := fun s =>
    if s.val = 4 then Option.some ⟨Color.white, Role.king⟩
    else if s.val = 7 then Option.some ⟨Color.white, Role.rook⟩
    else if s.val = 1 then Option.some ⟨Color.white, Role.knight⟩
    else if s.val = 60 then Option.some ⟨Color.black, Role.king⟩
    else Option.none
  turn := Color.white
  castleWK := true
  castleWQ := false
  castleBK := false
  castleBQ := false
  epFile := Option.none

/-- Position reached after the castle move in the C1/C2 scenarios: a
single black pawn on e5, black to move (evaluation +70 for the mover). -/
def pos1AfterCastle : Position where
  pieceAt := fun s =>
    if s.val = 36 then Option.some ⟨Color.black, Role.pawn⟩
    else Option.none
  turn := Color.black
  castleWK := false
  castleWQ := false
  castleBK := false
  castleBQ := false
  epFile := Option.some ⟨0, by omega⟩

/-- Position reached after the knight move in the C1 scenario: empty,
black to move (evaluation 0). -/
def pos1AfterKnight : Position where
  pieceAt := fun _ => Option.none
  turn := Color.black
  castleWK := false
  castleWQ := false
  castleBK := false
  castleBQ := false
  epFile := Option.some ⟨1, by omega⟩

/-- Oracle for the C1 scenario: the mover has the kingside castle and a
knight move; the position after the castle evaluates higher. -/
def oracle1 : ChessOracle where
  legal_moves := fun p =>
    match p.epFile with
    | Option.none => [castleE1H1, knightB1A3]
    | Option.some _ => []
  play_unchecked := fun p m =>
    match p.epFile with
    | Option.none => if m = castleE1H1 then pos1AfterCastle else pos1AfterKnight
    | Option.some _ => p
  is_check := fun _ => false
  outcome := fun _ => Option.none
  is_checkmate := fun _ => false

/-- Search context for the C1 scenario: the mover's handicap is the "no
castling" drawback. -/
def ctx1 : AiGameStateContext where
  board := pos1
  player_turn := Color.white
  player_drawback := DrawbackId.noCastling
  opponent_drawback := DrawbackId.none
  current_hash := 0
  depth := 0
  check_quietness := false
  quiescence_depth := 0
  time_limit_ms := 0

/-- Oracle for the C2 scenario: the kingside castle is the only legal
move. -/
def oracle2 : ChessOracle where
  legal_moves := fun p =>
    match p.epFile with
    | Option.none => [castleE1H1]
    | Option.some _ => []
  play_unchecked := fun p m =>
    match p.epFile with
    | Option.none => if m = castleE1H1 then pos1AfterCastle else pos1AfterKnight
    | Option.some _ => p
  is_check := fun _ => false
  outcome := fun _ => Option.none
  is_checkmate := fun _ => false

/-- Search context for the C2 scenario. -/
def ctx2 : AiGameStateContext where
  board := pos1
  player_turn := Color.white
  player_drawback := DrawbackId.noCastling
  opponent_drawback := DrawbackId.none
  current_hash := 0
  depth := 0
  check_quietness := false
  quiescence_depth := 0
  time_limit_ms := 0

/-- White king e1, white pawn e4, black king e8; white to move.  A
material-unbalanced position used against claim C4. -/
def pawnUpPos : Position where
  pieceAt := fun s =>
    if s.val = 4 then Option.some ⟨Color.white, Role.king⟩
    else if s.val = 28 then Option.some ⟨Color.white, Role.pawn⟩
    else if s.val = 60 then Option.some ⟨Color.black, Role.king⟩
    else Option.none
  turn := Color.white
  castleWK := false
  castleWQ := false
  castleBK := false
  castleBQ := false
  epFile := Option.none

/-- White king e1, black king e8 only; white to move (balanced). -/
def kingsOnlyPos : Position where
  pieceAt := fun s =>
    if s.val = 4 then Option.some ⟨Color.white, Role.king⟩
    else if s.val = 60 then Option.some ⟨Color.black, Role.king⟩
    else Option.none
  turn := Color.white
  castleWK := false
  castleWQ := false
  castleBK := false
  castleBQ := false
  epFile := Option.none

end DC


namespace DC

/-! ## Theorems -/

/-- Helper: the capped, normalized, inverted phase formula lies in
[0, 1] for a nonnegative accumulator. -/
theorem phase_formula_mem_unit (q : ℚ) (h : 0 ≤ q) :
    0 ≤ 1 - min q 24 / 24 ∧ 1 - min q 24 / 24 ≤ 1 := by
  have hhi : min q 24 ≤ 24 := min_le_right _ _
  have hlo : (0 : ℚ) ≤ min q 24 := le_min h (by norm_num)
  constructor
  · have : min q 24 / 24 ≤ 1 := by
      rw [div_le_one (by norm_num)]
      exact hhi
    linarith
  · have : (0 : ℚ) ≤ min q 24 / 24 := by positivity
    linarith

/-- Helper: the phase formula is antitone in the accumulator. -/
theorem phase_formula_antitone (p q : ℚ) (hpq : q ≤ p) :
    1 - min p 24 / 24 ≤ 1 - min q 24 / 24 := by
  have hmin : min q 24 ≤ min p 24 := min_le_min hpq (le_refl _)
  have : min q 24 / 24 ≤ min p 24 / 24 := by gcongr
  linarith

/-- Helper: the game phase always lies in [0, 1]. -/
theorem compute_game_phase_mem_unit (P : Position) :
    0 ≤ compute_game_phase P ∧ compute_game_phase P ≤ 1 := by
  unfold compute_game_phase
  exact phase_formula_mem_unit _ (Nat.cast_nonneg _)

/-- Helper: removing a piece never increases the raw phase sum. -/
theorem phaseSum_remove_le (P : Position) (s : Square) :
    phaseSum (removePieceAt P s) ≤ phaseSum P := by
  unfold phaseSum
  apply List.sum_le_sum
  intro t _
  by_cases hts : t = s
  · subst hts
    simp only [removePieceAt, Function.update_same]
    cases P.pieceAt t <;> simp
  · simp [removePieceAt, Function.update_noteq hts]

/-- Claim C6: `gamePhase` is monotonic: removing one piece that is neither a
pawn nor a king never decreases the endgame measure, and the measure
always lies in [0, 1] via the cap-at-24, normalize, invert
computation. -/
theorem game_phase_monotone_and_bounded (P : Position) (s : Square) (pc : Piece)
    (hocc : P.pieceAt s = Option.some pc) (hp : pc.role ≠ Role.pawn) (hk : pc.role ≠ Role.king) :
    compute_game_phase P ≤ compute_game_phase (removePieceAt P s) ∧
    (0 ≤ compute_game_phase P ∧ compute_game_phase P ≤ 1) ∧
    (0 ≤ compute_game_phase (removePieceAt P s) ∧
      compute_game_phase (removePieceAt P s) ≤ 1) := by
  refine ⟨?_, compute_game_phase_mem_unit P, compute_game_phase_mem_unit (removePieceAt P s)⟩
  have hmono : phaseSum (removePieceAt P s) ≤ phaseSum P := phaseSum_remove_le P s
  have hcast : ((phaseSum (removePieceAt P s) : ℚ)) ≤ ((phaseSum P : ℚ)) := by
    exact_mod_cast hmono
  unfold compute_game_phase
  exact phase_formula_antitone _ _ hcast

/-- Witness for C6 at a concrete board: removing the white knight of a
king-knight-king position. -/
theorem game_phase_monotone_and_bounded_witness :
    compute_game_phase
        { pieceAt := fun s =>
            if s.val = 4 then Option.some ⟨Color.white, Role.king⟩
            else if s.val = 1 then Option.some ⟨Color.white, Role.knight⟩
            else if s.val = 60 then Option.some ⟨Color.black, Role.king⟩
            else Option.none,
          turn := Color.white, castleWK := false, castleWQ := false, castleBK := false,
          castleBQ := false, epFile := Option.none } ≤
      compute_game_phase (removePieceAt
        { pieceAt := fun s =>
            if s.val = 4 then Option.some ⟨Color.white, Role.king⟩
            else if s.val = 1 then Option.some ⟨Color.white, Role.knight⟩
            else if s.val = 60 then Option.some ⟨Color.black, Role.king⟩
            else Option.none,
          turn := Color.white, castleWK := false, castleWQ := false, castleBK := false,
          castleBQ := false, epFile := Option.none } (sq 1)) := by
  exact (game_phase_monotone_and_bounded _ (sq 1) ⟨Color.white, Role.knight⟩ (by decide)
    (by decide) (by decide)).1

/-- Claim C7: the "no castling" handicap filter returns exactly the non-castle
input moves in their original relative order; on a list containing a
single castle move it removes exactly that move. -/
theorem no_castling_filter_exact (pos : Position) (moves : List Move) (o : Option Nat) :
    (noCastling_filter_pseudo_legal_moves pos moves o).Sublist moves ∧
    (∀ m : Move, m ∈ noCastling_filter_pseudo_legal_moves pos moves o ↔
      m ∈ moves ∧ m.isCastle = false) ∧
    (∀ l1 l2 : List Move, ∀ c : Move, moves = l1 ++ c :: l2 → c.isCastle = true →
      (∀ m ∈ l1, m.isCastle = false) → (∀ m ∈ l2, m.isCastle = false) →
      noCastling_filter_pseudo_legal_moves pos moves o = l1 ++ l2) := by
  refine ⟨List.filter_sublist _, ?_, ?_⟩
  · intro m
    simp [noCastling_filter_pseudo_legal_moves, List.mem_filter]
  · intro l1 l2 c hm hc h1 h2
    subst hm
    unfold noCastling_filter_pseudo_legal_moves
    rw [List.filter_append, List.filter_cons]
    have hc2 : (! c.isCastle) = false := by simp [hc]
    rw [hc2]
    simp only [Bool.false_eq_true, if_false]
    rw [List.filter_eq_self.mpr, List.filter_eq_self.mpr]
    · intro m hm2
      simp [h2 m hm2]
    · intro m hm2
      simp [h1 m hm2]

/-- Witness for C7: a three-move list with one castle move in the middle. -/
theorem no_castling_filter_exact_witness :
    noCastling_filter_pseudo_legal_moves emptyPos [knightB1A3, castleE1H1, knightG1F3]
        Option.none = [knightB1A3, knightG1F3] := by
  exact (no_castling_filter_exact emptyPos [knightB1A3, castleE1H1, knightG1F3]
    Option.none).2.2 [knightB1A3] [knightG1F3] castleE1H1 rfl (by decide) (by decide) (by decide)

/-- Claim C8: for every outcome o in 0..7, the "blocked file" handicap filter
removes exactly the moves whose destination lies on the o-th file
(0 = file A) and keeps all others in their original relative order. -/
theorem block_random_file_filter_exact (pos : Position) (moves : List Move) (o : Nat)
    (h : o < 8) :
    (blockRandomFile_filter_pseudo_legal_moves pos moves (Option.some o)).Sublist moves ∧
    (∀ m : Move, m ∈ blockRandomFile_filter_pseudo_legal_moves pos moves (Option.some o) ↔
      m ∈ moves ∧ fileOf m.toSq ≠ o) := by
  have he : blockRandomFile_filter_pseudo_legal_moves pos moves (Option.some o) =
      moves.filter (fun mv => decide (fileOf mv.toSq ≠ o)) := by
    unfold blockRandomFile_filter_pseudo_legal_moves
    simp [h]
  rw [he]
  refine ⟨List.filter_sublist _, ?_⟩
  intro m
  rw [List.mem_filter]
  simp

/-- Witness for C8 at outcome 0 (file A): the move landing on a3 is
removed, the move landing on f3 stays. -/
theorem block_random_file_filter_exact_witness :
    (0 : Nat) < 8 ∧
    ((blockRandomFile_filter_pseudo_legal_moves emptyPos [knightB1A3, knightG1F3]
        (Option.some 0)).Sublist [knightB1A3, knightG1F3] ∧
      (knightB1A3 ∈ blockRandomFile_filter_pseudo_legal_moves emptyPos [knightB1A3, knightG1F3]
        (Option.some 0) ↔
        knightB1A3 ∈ [knightB1A3, knightG1F3] ∧ fileOf knightB1A3.toSq ≠ 0)) :=
  ⟨by decide,
    (block_random_file_filter_exact emptyPos [knightB1A3, knightG1F3] 0 (by decide)).1,
    (block_random_file_filter_exact emptyPos [knightB1A3, knightG1F3] 0 (by decide)).2
      knightB1A3⟩

/-- Claim C9: a handicap configuration whose name is not a known drawback name
and whose index is not a known drawback index (including both absent)
resolves to the identity "none" rule. -/
theorem resolve_drawback_id_unknown_to_none (s : DrawbackSetting)
    (hn : ∀ n : String, s.name = Option.some n →
      n ≠ "No Castling" ∧ n ≠ "Pawns Advance One" ∧ n ≠ "Random File Blocked")
    (hi : ∀ i : Nat, s.index = Option.some i → i ≠ 1 ∧ i ≠ 2 ∧ i ≠ 3) :
    resolve_drawback_id s = DrawbackId.none := by
  unfold resolve_drawback_id
  rcases s with ⟨name, index⟩
  rcases name with _ | n
  · rcases index with _ | i
    · simp
    · obtain ⟨h1, h2, h3⟩ := hi i rfl
      simp only [Option.isNone_none, Option.isNone_some]
      match i, h1, h2, h3 with
      | 0, _, _, _ => simp
      | 1, h1, _, _ => exact absurd rfl h1
      | 2, _, h2, _ => exact absurd rfl h2
      | 3, _, _, h3 => exact absurd rfl h3
      | (k + 4), _, _, _ => simp
  · obtain ⟨h1, h2, h3⟩ := hn n rfl
    simp only [Option.isNone_some]
    split
    · simp_all
    · rfl

/-- Helper: list sums split over pointwise addition. -/
theorem sum_map_add {α : Type} (l : List α) (f g : α → ℤ) :
    (l.map (fun x => f x + g x)).sum = (l.map f).sum + (l.map g).sum := by
  induction l with
  | nil => simp
  | cons a t ih =>
      simp only [List.map_cons, List.sum_cons, ih]
      ring

/-- Helper: list sums split over pointwise subtraction. -/
theorem sum_map_sub {α : Type} (l : List α) (f g : α → ℤ) :
    (l.map (fun x => f x - g x)).sum = (l.map f).sum - (l.map g).sum := by
  induction l with
  | nil => simp
  | cons a t ih =>
      simp only [List.map_cons, List.sum_cons, ih]
      ring

/-- Helper: truncation toward zero is odd. -/
theorem truncQ_neg (q : ℚ) : truncQ (-q) = -truncQ q := by
  unfold truncQ
  rcases lt_trichotomy q 0 with h | h | h
  · rw [if_neg (by linarith), if_pos h]
    simp
  · subst h
    simp
  · rw [if_pos (by linarith), if_neg (by linarith)]
    simp

/-- Helper: the vertical mirror is an involution. -/
theorem mirrorSq_invol : ∀ t : Square, mirrorSq (mirrorSq t) = t := by decide

/-- Helper: mirroring permutes the square enumeration. -/
theorem allSquares_mirror_perm : (allSquares.map mirrorSq).Perm allSquares := by decide

/-- Helper: sums over all squares are invariant under the mirror
reindexing. -/
theorem sum_comp_mirrorSq {M : Type} [AddCommMonoid M] (g : Square → M) :
    (allSquares.map (fun t => g (mirrorSq t))).sum = (allSquares.map g).sum := by
  have h1 : allSquares.map (fun t => g (mirrorSq t)) = (allSquares.map mirrorSq).map g := by
    rw [List.map_map]
    rfl
  rw [h1]
  exact (allSquares_mirror_perm.map g).sum_eq

/-- Helper: the mover sign is preserved by the color-swap turn-flip pair. -/
theorem sign_flip_eq (c t : Color) :
    (if Color.flip c = Color.flip t then (1 : ℤ) else -1) = (if c = t then 1 else -1) := by
  cases c <;> cases t <;> rfl

/-- Helper: the midgame table entry of the color-swapped piece on a square
is the negated entry of the original piece on the mirrored square. -/
theorem mg_table_value_flip (pc : Piece) (t : Square) :
    mg_table_value ⟨pc.color.flip, pc.role⟩ t = -(mg_table_value pc (mirrorSq t)) := by
  rcases pc with ⟨c, r⟩
  cases c
  · rfl
  · show mg_table_value ⟨Color.white, r⟩ t = -(mg_table_value ⟨Color.black, r⟩ (mirrorSq t))
    unfold mg_table_value
    simp only [mirrorSq_invol t, neg_neg]

/-- Helper: the endgame analogue of `mg_table_value_flip`. -/
theorem eg_table_value_flip (pc : Piece) (t : Square) :
    eg_table_value ⟨pc.color.flip, pc.role⟩ t = -(eg_table_value pc (mirrorSq t)) := by
  rcases pc with ⟨c, r⟩
  cases c
  · rfl
  · show eg_table_value ⟨Color.white, r⟩ t = -(eg_table_value ⟨Color.black, r⟩ (mirrorSq t))
    unfold eg_table_value
    simp only [mirrorSq_invol t, neg_neg]

/-- Helper: the interpolated piece-square bonus of the color-swapped piece
is the negated bonus of the original piece on the mirrored square. -/
theorem get_psv_flip (pc : Piece) (t : Square) (phi : ℚ) :
    get_piece_square_value ⟨pc.color.flip, pc.role⟩ t phi =
      -(get_piece_square_value pc (mirrorSq t) phi) := by
  unfold get_piece_square_value
  rw [mg_table_value_flip, eg_table_value_flip, ← truncQ_neg]
  congr 1
  push_cast
  ring

/-- Helper: the raw phase sum is invariant under mirror + color swap +
turn flip (phase weights ignore color and the board is permuted). -/
theorem phaseSum_mirrorSwapFlip (P : Position) :
    phaseSum (mirrorSwapFlip P) = phaseSum P := by
  have h2 := sum_comp_mirrorSq (fun t =>
    match P.pieceAt t with
    | Option.some pc => PIECE_PHASE_VALUES pc.role
    | Option.none => 0)
  have h1 : (allSquares.map (fun sq =>
      match (mirrorSwapFlip P).pieceAt sq with
      | Option.some pc => PIECE_PHASE_VALUES pc.role
      | Option.none => 0)) = allSquares.map (fun sq =>
      match P.pieceAt (mirrorSq sq) with
      | Option.some pc => PIECE_PHASE_VALUES pc.role
      | Option.none => 0) := by
    apply List.map_congr_left
    intro t _
    simp only [mirrorSwapFlip]
    cases P.pieceAt (mirrorSq t) <;> rfl
  unfold phaseSum
  rw [h1]
  exact h2

/-- Helper: the game phase is invariant under the C4 transformation. -/
theorem compute_game_phase_mirrorSwapFlip (P : Position) :
    compute_game_phase (mirrorSwapFlip P) = compute_game_phase P := by
  unfold compute_game_phase
  rw [phaseSum_mirrorSwapFlip]

/-- Helper: the evaluation splits into its base-material and
piece-square parts. -/
theorem evaluate_split (P : Position) :
    evaluate_position_with_pst P = base_material_balance P + pstBalance P := by
  unfold evaluate_position_with_pst base_material_balance pstBalance
  rw [← sum_map_add]
  apply congrArg
  apply List.map_congr_left
  intro t _
  cases P.pieceAt t with
  | none => simp
  | some pc =>
      simp only []
      ring

/-- Helper: the evaluation of the transformed position is the base part
minus the piece-square part of the original. -/
theorem evaluate_mirrorSwapFlip_eq (P : Position) :
    evaluate_position_with_pst (mirrorSwapFlip P) =
      base_material_balance P - pstBalance P := by
  have h2 := sum_comp_mirrorSq (fun t =>
    match P.pieceAt t with
    | Option.none => (0 : Int)
    | Option.some pc =>
        (if pc.color = P.turn then 1 else -1) *
          (base_piece_value pc.role (compute_game_phase P) -
            get_piece_square_value pc t (compute_game_phase P)))
  have h3 : (allSquares.map (fun t =>
      match P.pieceAt t with
      | Option.none => (0 : Int)
      | Option.some pc =>
          (if pc.color = P.turn then 1 else -1) *
            (base_piece_value pc.role (compute_game_phase P) -
              get_piece_square_value pc t (compute_game_phase P)))).sum =
      base_material_balance P - pstBalance P := by
    unfold base_material_balance pstBalance
    rw [← sum_map_sub]
    apply congrArg
    apply List.map_congr_left
    intro t _
    cases P.pieceAt t with
    | none => simp
    | some pc =>
        simp only []
        ring
  unfold evaluate_position_with_pst
  rw [compute_game_phase_mirrorSwapFlip]
  have h1 : (allSquares.map (fun sq =>
      match (mirrorSwapFlip P).pieceAt sq with
      | Option.none => (0 : Int)
      | Option.some pc =>
          (if pc.color = (mirrorSwapFlip P).turn then 1 else -1) *
            (base_piece_value pc.role (compute_game_phase P) +
              get_piece_square_value pc sq (compute_game_phase P)))) =
      allSquares.map (fun sq =>
      match P.pieceAt (mirrorSq sq) with
      | Option.none => (0 : Int)
      | Option.some pc =>
          (if pc.color = P.turn then 1 else -1) *
            (base_piece_value pc.role (compute_game_phase P) -
              get_piece_square_value pc (mirrorSq sq) (compute_game_phase P))) := by
    apply List.map_congr_left
    intro t _
    simp only [mirrorSwapFlip]
    cases hp : P.pieceAt (mirrorSq t) with
    | none => rfl
    | some pc =>
        show (if pc.color.flip = P.turn.flip then (1 : ℤ) else -1) *
            (base_piece_value pc.role (compute_game_phase P) +
              get_piece_square_value ⟨pc.color.flip, pc.role⟩ t (compute_game_phase P)) =
          (if pc.color = P.turn then 1 else -1) *
            (base_piece_value pc.role (compute_game_phase P) -
              get_piece_square_value pc (mirrorSq t) (compute_game_phase P))
        rw [sign_flip_eq, get_psv_flip]
        ring
  rw [h1]
  exact h2.trans h3

/-- Validation of the ChaCha core against the block-function test vector
of RFC 8439 section 2.3.2 (ChaCha20, i.e. 10 double rounds; key bytes
00..1f, counter 1, nonce 00:00:00:09:00:00:00:4a:00:00:00:00). -/
theorem chachaBlock_rfc8439_vector :
    chachaBlock 10
      [0x03020100, 0x07060504, 0x0b0a0908, 0x0f0e0d0c,
       0x13121110, 0x17161514, 0x1b1a1918, 0x1f1e1d1c]
      [1, 0x09000000, 0x4a000000, 0] =
      [0xe4e7f110, 0x15593bd1, 0x1fdd0f50, 0xc47120a3,
       0xc7f4d1c7, 0x0368c033, 0x9aaa2204, 0x4e6cd4c3,
       0x466482d2, 0x09aa9f07, 0x05d7c214, 0xa2028bd9,
       0xd19c12b5, 0xb94e16de, 0xe883d0cb, 0x4e3c50a2] := by decide

/-- Helper: cancelling a repeated XOR operand. -/
theorem xor_xor_cancel (a b : Nat) : a ^^^ (a ^^^ b) = b := by
  rw [← Nat.xor_assoc, Nat.xor_self, Nat.zero_xor]

/-- Helper: left commutativity of XOR. -/
theorem nat_xor_left_comm (a b c : Nat) : a ^^^ (b ^^^ c) = b ^^^ (a ^^^ c) := by
  rw [← Nat.xor_assoc, Nat.xor_comm a b, Nat.xor_assoc]

/-- Helper: XOR-ing the common operands out of the hash chain leaves the
turn and drawback contributions. -/
theorem xor_chain_extract (A C1 C2 C3 C4 E R t d : Nat) :
    (A ^^^ t ^^^ C1 ^^^ C2 ^^^ C3 ^^^ C4 ^^^ E ^^^ d ^^^ R) ^^^
      (A ^^^ (C1 ^^^ (C2 ^^^ (C3 ^^^ (C4 ^^^ (E ^^^ R)))))) = t ^^^ d := by
  simp only [Nat.xor_assoc]
  simp [Nat.xor_comm, nat_xor_left_comm, xor_xor_cancel, Nat.xor_self, Nat.xor_zero,
    Nat.zero_xor]

/-- Helper: two hash chains with the same piece, castling, en-passant and
outcome contributions differ whenever their combined turn and drawback
contributions differ. -/
theorem xor_chain_ne (A C1 C2 C3 C4 E R t1 d1 t2 d2 : Nat)
    (ht : t1 ^^^ d1 ≠ t2 ^^^ d2) :
    A ^^^ t1 ^^^ C1 ^^^ C2 ^^^ C3 ^^^ C4 ^^^ E ^^^ d1 ^^^ R ≠
      A ^^^ t2 ^^^ C1 ^^^ C2 ^^^ C3 ^^^ C4 ^^^ E ^^^ d2 ^^^ R := by
  intro h
  apply ht
  have h2 := congrArg
    (fun z => z ^^^ (A ^^^ (C1 ^^^ (C2 ^^^ (C3 ^^^ (C4 ^^^ (E ^^^ R))))))) h
  simpa only [xor_chain_extract] using h2

/-- Helper: the turn key XOR any drawback key never equals a drawback
key, for the keys generated from the fixed seed 42664 (checked on the
concrete ChaCha12 key values). -/
theorem zobrist_turn_flip_key_ne :
    ∀ d1 d2 : DrawbackId,
      initZobristKeys.turnKey ^^^
          initZobristKeys.drawbacks (d1.to_key_index % MAX_DRAWBACK_INDICES) ≠
        initZobristKeys.drawbacks (d2.to_key_index % MAX_DRAWBACK_INDICES) := by
  intro d1 d2
  cases d1 <;> cases d2 <;> with_unfolding_all decide

/-- Claim C5: the Zobrist hash is a pure function of the position and the
auxiliary state (side to move, castling rights, en-passant file, active
handicap id, pending random outcome), with keys derived from the fixed
seed 42664; and flipping only the side to move always changes the hash
value. -/
theorem zobrist_hash_pure_and_turn_dependent :
    (∀ gs1 gs2 : GameStateZ, gs1.board = gs2.board →
      gs1.current_player_turn = gs2.current_player_turn →
      gs1.white_drawback = gs2.white_drawback →
      gs1.black_drawback = gs2.black_drawback →
      gs1.current_turn_rng_outcome = gs2.current_turn_rng_outcome →
      calculate_zobrist_hash gs1 initZobristKeys = calculate_zobrist_hash gs2 initZobristKeys) ∧
    (∀ gs : GameStateZ,
      calculate_zobrist_hash (flipTurnState gs) initZobristKeys ≠
        calculate_zobrist_hash gs initZobristKeys) := by
  constructor
  · intro gs1 gs2 hb ht hw hbl hr
    unfold calculate_zobrist_hash GameStateZ.get_current_player_drawback_id
    rw [hb, ht, hw, hbl, hr]
  · intro gs
    unfold calculate_zobrist_hash GameStateZ.get_current_player_drawback_id flipTurnState
    simp only []
    apply xor_chain_ne
    rcases gs with ⟨board, turn, st, wd, bd, ro, zh, bf⟩
    simp only []
    cases turn
    · simp only [Color.flip]
      rw [if_pos trivial, if_neg (by decide), Nat.zero_xor]
      exact zobrist_turn_flip_key_ne bd wd
    · simp only [Color.flip]
      rw [if_pos trivial, if_neg (by decide), Nat.zero_xor]
      exact (zobrist_turn_flip_key_ne bd wd).symm

/-- Witness for C5: the two conjuncts applied at the default-like start
state (empty aux data, white to move, no drawbacks). -/
theorem zobrist_hash_pure_and_turn_dependent_witness :
    calculate_zobrist_hash
        (flipTurnState
          ⟨emptyPos, Color.white, true, DrawbackId.none, DrawbackId.none, Option.none, 0, false⟩)
        initZobristKeys ≠
      calculate_zobrist_hash
        ⟨emptyPos, Color.white, true, DrawbackId.none, DrawbackId.none, Option.none, 0, false⟩
        initZobristKeys :=
  zobrist_hash_pure_and_turn_dependent.2 _

/-- Counterexample for C4: on a material-unbalanced position (white king e1,
white pawn e4, black king e8, white to move) the mirrored, color-swapped,
turn-flipped evaluation is 130 while the original evaluates to 70, so
the values are not of equal magnitude and opposite sign; with the phase
exactly 1 the interpolation is exact, so integer truncation plays no
role. -/
theorem evaluate_not_antisymmetric_counterexample :
    evaluate_position_with_pst pawnUpPos = 70 ∧
    evaluate_position_with_pst (mirrorSwapFlip pawnUpPos) = 130 ∧
    evaluate_position_with_pst (mirrorSwapFlip pawnUpPos) ≠
      -(evaluate_position_with_pst pawnUpPos) := by
  refine ⟨by with_unfolding_all decide, by with_unfolding_all decide,
    by with_unfolding_all decide⟩

/-- Claim C4, amended: the evaluation of the mirrored, color-swapped,
turn-flipped position equals twice the mover-perspective interpolated
base-material balance minus the original evaluation; in particular the
claimed antisymmetry (equal magnitude, opposite sign) holds exactly when
that material balance is zero. -/
theorem evaluate_mirror_swap_identity (P : Position) :
    evaluate_position_with_pst (mirrorSwapFlip P) =
      2 * base_material_balance P - evaluate_position_with_pst P ∧
    (base_material_balance P = 0 →
      evaluate_position_with_pst (mirrorSwapFlip P) = -(evaluate_position_with_pst P)) := by
  have h1 := evaluate_split P
  have h2 := evaluate_mirrorSwapFlip_eq P
  constructor
  · rw [h1, h2]
    ring
  · intro hbal
    rw [h1, h2, hbal]
    ring

/-- Witness for C4 (amended) on the balanced two-kings position: the
balance is zero and the evaluation flips sign exactly. -/
theorem evaluate_mirror_swap_identity_witness :
    base_material_balance kingsOnlyPos = 0 ∧
    evaluate_position_with_pst (mirrorSwapFlip kingsOnlyPos) =
      -(evaluate_position_with_pst kingsOnlyPos) :=
  ⟨by with_unfolding_all decide,
    (evaluate_mirror_swap_identity kingsOnlyPos).2 (by with_unfolding_all decide)⟩

/-- Helper: adding a visit increments the visit count. -/
theorem addVisitScore_visits (n : MCTSNode) (sc : ℚ) :
    (n.addVisitScore sc).visits = n.visits + 1 := by
  cases n
  rfl

/-- Helper: rewriting a child leaves the node's own visit count alone. -/
theorem modifyChild_visits (n : MCTSNode) (i : Nat) (f : MCTSNode → MCTSNode) :
    (n.modifyChild i f).visits = n.visits := by
  cases n
  rfl

/-- Helper: backpropagation increments the root's visit count by exactly
one. -/
theorem backprop_visits (path : List Nat) (n : MCTSNode) (sc : ℚ) :
    (MCTSNode.backprop n path sc).visits = n.visits + 1 := by
  cases path with
  | nil => exact addVisitScore_visits n sc
  | cons i rest =>
      show ((n.addVisitScore sc).modifyChild i _).visits = n.visits + 1
      rw [modifyChild_visits, addVisitScore_visits]

/-- Helper: the expansion node rewrite does not change visit counts. -/
theorem expandInsert_visits (n : MCTSNode) (i : Nat) (ch : MCTSNode) :
    (n.expandInsert i ch).visits = n.visits := by
  cases n
  rfl

/-- Helper: an in-place update along a path that preserves visit counts
preserves the root's visit count. -/
theorem updateAt_visits (path : List Nat) (n : MCTSNode) (f : MCTSNode → MCTSNode)
    (hf : ∀ m, (f m).visits = m.visits) :
    (MCTSNode.updateAt n path f).visits = n.visits := by
  cases path with
  | nil => exact hf n
  | cons i rest => exact modifyChild_visits n i _

/-- Helper: the expansion phase does not change the root's visit count. -/
theorem mcts_expansion_visits (o : ChessOracle) (ctx : AiGameStateContext)
    (player_turn : Color) (rng : Nat → Nat) (root : MCTSNode) (path : List Nat)
    (cursor : Nat) :
    ((mcts_expansion o ctx player_turn rng root path cursor).1).visits = root.visits := by
  unfold mcts_expansion
  dsimp only
  by_cases h : (!(root.getAt path).unexplored_moves.isEmpty &&
      decide (0 < (root.getAt path).visits)) = true
  · rw [if_pos h]
    exact updateAt_visits path root _ (fun m => expandInsert_visits m _ _)
  · rw [if_neg h]

/-- Helper: each iteration increments the root's visit count by exactly
one (backpropagation touches every node on the path once, the root
included). -/
theorem mcts_iteration_visits (o : ChessOracle) (ctx : AiGameStateContext)
    (explTerm : Nat → Nat → ℚ) (player_turn : Color) (player_is_white : Bool)
    (rng : Nat → Nat) (root : MCTSNode) (cursor : Nat) :
    ((mcts_iteration o ctx explTerm player_turn player_is_white rng root cursor).1).visits =
      root.visits + 1 := by
  unfold mcts_iteration
  simp only [backprop_visits, mcts_expansion_visits]

/-- Helper: `MCTSNode::expand` does not change the visit count. -/
theorem expand_visits (n : MCTSNode) (a b : DrawbackId) (c : Color) (o : ChessOracle) :
    (n.expand a b c o).visits = n.visits := by
  cases n with
  | mk v s p m ch u h he =>
      unfold MCTSNode.expand
      cases he <;> rfl

/-- Helper: along the iteration loop, the root's visit count tracks the
completed-iteration counter. -/
theorem mcts_loop_visits (o : ChessOracle) (ctx : AiGameStateContext)
    (explTerm : Nat → Nat → ℚ) (player_turn : Color) (player_is_white : Bool)
    (rng : Nat → Nat) (timeStop : Nat → Bool) :
    ∀ (fuel i : Nat) (root : MCTSNode) (cursor completed : Nat),
      root.visits = completed →
      ((mcts_loop o ctx explTerm player_turn player_is_white rng timeStop fuel i root cursor
          completed).1).visits =
        (mcts_loop o ctx explTerm player_turn player_is_white rng timeStop fuel i root cursor
          completed).2.1 := by
  intro fuel
  induction fuel with
  | zero => intro i root cursor completed h; exact h
  | succ n ih =>
      intro i root cursor completed h
      unfold mcts_loop
      split
      · exact h
      · apply ih
        rw [mcts_iteration_visits, h]

/-- Claim C10, MCTS visit conservation:  After every run of the MCTS variant,
the root node's visit count equals the number of completed simulations:
every completed iteration increments the root's visit count exactly once
during backpropagation (and when the early returns fire, both counts are
zero). -/
theorem mcts_root_visits_eq_completed (o : ChessOracle) (ctx : AiGameStateContext)
    (iterations : Nat) (explTerm : Nat → Nat → ℚ) (rng : Nat → Nat)
    (timeStop : Nat → Bool) :
    ((mcts_search o ctx iterations explTerm rng timeStop).1).visits =
      (mcts_search o ctx iterations explTerm rng timeStop).2.1 := by
  unfold mcts_search
  dsimp only
  split
  · rw [expand_visits]
    rfl
  · split
    · rw [expand_visits]
      rfl
    · apply mcts_loop_visits
      rw [expand_visits]
      rfl

/-- Claim C1, evaluated at a failing input.  Both search
functions select the kingside castle (the heuristic because the position
after castling scores higher, the MCTS variant as the random unexplored
fallback), although the mover's "no castling" handicap filter removes
exactly that move and leaves the knight move available: the returned
move does not lie in the rule-filtered legal move set.  Neither search
function ever consults the drawback filter (`MCTSNode::expand` ignores
its drawback parameters). -/
theorem find_best_move_ignores_drawback_filter :
    find_best_move_mcts oracle1 ctx1 1000 rngZ 0 = Option.some castleE1H1 ∧
    find_best_move_mcts_monte_carlo oracle1 ctx1 0 explTermZ rngZ stopZ =
      Option.some castleE1H1 ∧
    DrawbackId.noCastling.filterMoves pos1 (oracle1.legal_moves pos1) Option.none =
      [knightB1A3] ∧
    ¬ (castleE1H1 ∈
      DrawbackId.noCastling.filterMoves pos1 (oracle1.legal_moves pos1) Option.none) := by
  refine ⟨?_, ?_, ?_, ?_⟩ <;> with_unfolding_all decide

/-- Claim C2, evaluated at a failing input.  With the kingside
castle as the only legal move and the mover's "no castling" handicap,
the post-filter legal move set is empty, yet both search functions
return `Some` (the castle move) rather than `None`: the search returns
`None` exactly when the unfiltered legal move list is empty. -/
theorem find_best_move_some_despite_empty_filter :
    find_best_move_mcts oracle2 ctx2 1000 rngZ 0 = Option.some castleE1H1 ∧
    find_best_move_mcts_monte_carlo oracle2 ctx2 5 explTermZ rngZ stopZ =
      Option.some castleE1H1 ∧
    DrawbackId.noCastling.filterMoves pos1 (oracle2.legal_moves pos1) Option.none = [] := by
  refine ⟨?_, ?_, ?_⟩ <;> with_unfolding_all decide

/-- Counterexample for C3: a four-iteration MCTS run (rollout depth 0, zero
time budget pressure) in which the root child for the first move is
visited twice and the child for the second move once, yet the final
selection returns the second move — the child with the highest average
score — and not the move of the highest-visit (robust) child. -/
theorem mcts_final_choice_not_robust_child :
    (mcts_search oracleC3 ctxC3 4 explTermZ rngZ stopZ).2.2 = Option.some knightG1F3 ∧
    ((mcts_search oracleC3 ctxC3 4 explTermZ rngZ stopZ).1).children.map
        (fun c => (c.visits, c.move_made)) =
      [(2, Option.some knightB1A3), (1, Option.some knightG1F3)] ∧
    knightB1A3 ≠ knightG1F3 := by
  refine ⟨?_, ?_, ?_⟩ <;> with_unfolding_all decide

/-- Helper: the `best_child` accumulation returns a maximizer.  Running
`bcFold` over the remaining pairs from a sound intermediate state yields
a best score attained in the full list and bounding every element. -/
theorem bcFold_go (tl : List (Nat × ℚ)) :
    ∀ (b : ℚ) (idxs : List Nat) (done : List (Nat × ℚ)),
      idxs ≠ [] →
      (∀ k ∈ idxs, (k, b) ∈ done) →
      (∀ p ∈ done, p.2 ≤ b) →
      ∃ B IDXS, bcFold tl (Option.some b, idxs) = (Option.some B, IDXS) ∧ IDXS ≠ [] ∧
        (∀ k ∈ IDXS, (k, B) ∈ done ++ tl) ∧ (∀ p ∈ done ++ tl, p.2 ≤ B) := by
  induction tl with
  | nil =>
      intro b idxs done h1 h2 h3
      exact ⟨b, idxs, rfl, h1, fun k hk => by simpa using h2 k hk,
        fun p hp => h3 p (by simpa using hp)⟩
  | cons hd tl ih =>
      intro b idxs done h1 h2 h3
      obtain ⟨i, sc⟩ := hd
      by_cases hlt : b < sc
      · have hred : bcFold ((i, sc) :: tl) (Option.some b, idxs) =
            bcFold tl (Option.some sc, [i]) := by
          simp [bcFold, hlt]
        rw [hred]
        obtain ⟨B, IDXS, hB, hne2, hmem, hub⟩ := ih sc [i] (done ++ [(i, sc)]) (by simp)
          (fun k hk => by
            simp only [List.mem_singleton] at hk
            subst hk
            simp)
          (fun p hp => by
            rcases List.mem_append.mp hp with hp | hp
            · exact le_of_lt (lt_of_le_of_lt (h3 p hp) hlt)
            · simp only [List.mem_singleton] at hp
              subst hp
              exact le_refl _)
        refine ⟨B, IDXS, hB, hne2, ?_, ?_⟩
        · intro k hk
          have := hmem k hk
          simpa [List.append_assoc] using this
        · intro p hp
          apply hub
          simpa [List.append_assoc] using hp
      · by_cases heq : sc = b
        · have hred : bcFold ((i, sc) :: tl) (Option.some b, idxs) =
              bcFold tl (Option.some b, idxs ++ [i]) := by
            simp [bcFold, hlt, heq]
          rw [hred]
          subst heq
          obtain ⟨B, IDXS, hB, hne2, hmem, hub⟩ := ih sc (idxs ++ [i]) (done ++ [(i, sc)])
            (by simp)
            (fun k hk => by
              rcases List.mem_append.mp hk with hk | hk
              · exact List.mem_append_left _ (h2 k hk)
              · simp only [List.mem_singleton] at hk
                subst hk
                simp)
            (fun p hp => by
              rcases List.mem_append.mp hp with hp | hp
              · exact h3 p hp
              · simp only [List.mem_singleton] at hp
                subst hp
                exact le_refl _)
          refine ⟨B, IDXS, hB, hne2, ?_, ?_⟩
          · intro k hk
            have := hmem k hk
            simpa [List.append_assoc] using this
          · intro p hp
            apply hub
            simpa [List.append_assoc] using hp
        · have hred : bcFold ((i, sc) :: tl) (Option.some b, idxs) =
              bcFold tl (Option.some b, idxs) := by
            simp [bcFold, hlt, heq]
          rw [hred]
          obtain ⟨B, IDXS, hB, hne2, hmem, hub⟩ := ih b idxs (done ++ [(i, sc)]) h1
            (fun k hk => List.mem_append_left _ (h2 k hk))
            (fun p hp => by
              rcases List.mem_append.mp hp with hp | hp
              · exact h3 p hp
              · simp only [List.mem_singleton] at hp
                subst hp
                exact le_of_not_lt hlt)
          refine ⟨B, IDXS, hB, hne2, ?_, ?_⟩
          · intro k hk
            have := hmem k hk
            simpa [List.append_assoc] using this
          · intro p hp
            apply hub
            simpa [List.append_assoc] using hp

/-- Helper: on a non-empty scored list, the fold from the initial state
returns indices of maximal score. -/
theorem bcFold_max (l : List (Nat × ℚ)) (hl : l ≠ []) :
    ∃ B IDXS, bcFold l (Option.none, []) = (Option.some B, IDXS) ∧ IDXS ≠ [] ∧
      (∀ k ∈ IDXS, (k, B) ∈ l) ∧ (∀ p ∈ l, p.2 ≤ B) := by
  cases l with
  | nil => exact absurd rfl hl
  | cons hd tl =>
      obtain ⟨i, sc⟩ := hd
      have hred : bcFold ((i, sc) :: tl) (Option.none, []) =
          bcFold tl (Option.some sc, [i]) := rfl
      rw [hred]
      obtain ⟨B, IDXS, hB, hne, hmem, hub⟩ := bcFold_go tl sc [i] [(i, sc)] (by simp)
        (fun k hk => by
          simp only [List.mem_singleton] at hk
          subst hk
          simp)
        (fun p hp => by
          simp only [List.mem_singleton] at hp
          subst hp
          exact le_refl _)
      exact ⟨B, IDXS, hB, hne, fun k hk => by simpa using hmem k hk,
        fun p hp => hub p (by simpa using hp)⟩

/-- Helper: with the exploration term disabled, `best_child` returns an
index of a child maximizing average score (cumulative score divided by
visit count). -/
theorem best_child_false_max (n : MCTSNode) (explTerm : Nat → Nat → ℚ) (rng : Nat → Nat)
    (cursor : Nat) (hne : n.children ≠ []) :
    ∃ i, i < n.children.length ∧
      (n.best_child false explTerm rng cursor).1 = Option.some i ∧
      ∀ j, j < n.children.length →
        (n.children.getD j default).score / ((n.children.getD j default).visits : ℚ) ≤
          (n.children.getD i default).score / ((n.children.getD i default).visits : ℚ) := by
  have henum : n.children.enum ≠ [] := by
    intro he
    apply hne
    have := congrArg List.length he
    simpa [List.enum_length] using this
  have hscne : n.children.enum.map
      (fun p => (p.1, p.2.score / (p.2.visits : ℚ))) ≠ [] := by
    simp [henum]
  obtain ⟨B, IDXS, hB, hIne, hmem, hub⟩ :=
    bcFold_max (n.children.enum.map (fun p => (p.1, p.2.score / (p.2.visits : ℚ)))) hscne
  have hsc : (n.children.enum.map (fun p => (p.1, p.2.score / (p.2.visits : ℚ) +
      (if false then explTerm n.visits p.2.visits else 0)))) =
      n.children.enum.map (fun p => (p.1, p.2.score / (p.2.visits : ℚ))) := by
    apply List.map_congr_left
    intro p _
    simp
  have hfromIDXS : ∀ k ∈ IDXS, k < n.children.length ∧
      B = (n.children.getD k default).score / ((n.children.getD k default).visits : ℚ) := by
    intro k hk
    obtain ⟨p, hp, hpk⟩ := List.mem_map.mp (hmem k hk)
    obtain ⟨hk1, hk2⟩ := Prod.mk.injEq _ _ _ _ ▸ hpk
    obtain ⟨hplt, hpeq⟩ := List.mem_enum hp
    subst hk1
    refine ⟨hplt, ?_⟩
    rw [List.getD_eq_getElem _ _ hplt, ← hpeq]
    exact hk2.symm
  have hbound : ∀ j, j < n.children.length →
      (n.children.getD j default).score / ((n.children.getD j default).visits : ℚ) ≤ B := by
    intro j hj
    have hmemj : ((j : Nat), n.children[j]) ∈ n.children.enum := by
      rw [List.mem_enum_iff_getElem?]
      simp [List.getElem?_eq_getElem hj]
    have : ((j : Nat), (n.children[j]).score / ((n.children[j]).visits : ℚ)) ∈
        n.children.enum.map (fun p => (p.1, p.2.score / (p.2.visits : ℚ))) :=
      List.mem_map.mpr ⟨_, hmemj, rfl⟩
    have := hub _ this
    rw [List.getD_eq_getElem _ _ hj]
    exact this
  unfold MCTSNode.best_child
  dsimp only
  rw [if_neg (by simp [hne])]
  rw [hsc, hB]
  dsimp only
  rw [if_neg (by simp [hIne])]
  by_cases hlen : 1 < IDXS.length
  · rw [if_pos hlen]
    have hrlt : (genRange rng cursor IDXS.length).1 < IDXS.length :=
      Nat.mod_lt _ (by omega)
    have hkmem : IDXS.getD (genRange rng cursor IDXS.length).1 0 ∈ IDXS := by
      rw [List.getD_eq_getElem _ _ hrlt]
      exact List.getElem_mem hrlt
    obtain ⟨hklt, hkB⟩ := hfromIDXS _ hkmem
    exact ⟨_, hklt, rfl, fun j hj => hkB ▸ hbound j hj⟩
  · rw [if_neg hlen]
    have hlen0 : 0 < IDXS.length := List.length_pos.mpr hIne
    have hkmem : IDXS.getD 0 0 ∈ IDXS := by
      rw [List.getD_eq_getElem _ _ hlen0]
      exact List.getElem_mem hlen0
    obtain ⟨hklt, hkB⟩ := hfromIDXS _ hkmem
    exact ⟨_, hklt, rfl, fun j hj => hkB ▸ hbound j hj⟩

/-- Claim C3, amended: the final selection of the MCTS variant returns the
move of a root child with the highest average score (cumulative score
over visits, exploration term disabled) — not the highest visit count;
if the root has no children, it returns a uniformly drawn unexplored
root move, or `None` when none exist. -/
theorem mcts_final_choice_max_average (root : MCTSNode) (explTerm : Nat → Nat → ℚ)
    (rng : Nat → Nat) (cursor : Nat) :
    (root.children ≠ [] → (∀ c ∈ root.children, 0 < c.visits) →
      ∃ i, i < root.children.length ∧
        mcts_final_choice root explTerm rng cursor =
          (root.children.getD i default).move_made ∧
        ∀ j, j < root.children.length →
          (root.children.getD j default).score / ((root.children.getD j default).visits : ℚ) ≤
            (root.children.getD i default).score /
              ((root.children.getD i default).visits : ℚ)) ∧
    (root.children = [] → root.unexplored_moves ≠ [] →
      ∃ m, mcts_final_choice root explTerm rng cursor = Option.some m ∧
        m ∈ root.unexplored_moves) ∧
    (root.children = [] → root.unexplored_moves = [] →
      mcts_final_choice root explTerm rng cursor = Option.none) := by
  refine ⟨?_, ?_, ?_⟩
  · intro hne _hpos
    obtain ⟨i, hilt, hval, hmax⟩ := best_child_false_max root explTerm rng cursor hne
    refine ⟨i, hilt, ?_, hmax⟩
    unfold mcts_final_choice
    rcases hpair : root.best_child false explTerm rng cursor with ⟨fst, snd⟩
    rw [hpair] at hval
    dsimp only at hval
    subst hval
    rfl
  · intro hempty hune
    unfold mcts_final_choice
    have hbc : root.best_child false explTerm rng cursor = (Option.none, cursor) := by
      unfold MCTSNode.best_child
      rw [if_pos (by simp [hempty])]
    rw [hbc]
    simp only []
    rw [if_pos (by simp [hune])]
    have hlen0 : 0 < root.unexplored_moves.length := List.length_pos.mpr hune
    refine ⟨_, rfl, ?_⟩
    have hrlt : (genRange rng cursor root.unexplored_moves.length).1 <
        root.unexplored_moves.length := Nat.mod_lt _ hlen0
    rw [List.getD_eq_getElem _ _ hrlt]
    exact List.getElem_mem hrlt
  · intro hempty hure
    unfold mcts_final_choice
    have hbc : root.best_child false explTerm rng cursor = (Option.none, cursor) := by
      unfold MCTSNode.best_child
      rw [if_pos (by simp [hempty])]
    rw [hbc]
    simp only []
    rw [if_neg (by simp [hure])]

/-- Witness for C3 (amended) on the demo root: the returned move is the
second child's, whose average 1/2 beats the first child's 3/10. -/
theorem mcts_final_choice_max_average_witness :
    ∃ i, i < demoRoot.children.length ∧
      mcts_final_choice demoRoot explTermZ rngZ 0 =
        (demoRoot.children.getD i default).move_made ∧
      ∀ j, j < demoRoot.children.length →
        (demoRoot.children.getD j default).score /
            ((demoRoot.children.getD j default).visits : ℚ) ≤
          (demoRoot.children.getD i default).score /
            ((demoRoot.children.getD i default).visits : ℚ) :=
  (mcts_final_choice_max_average demoRoot explTermZ rngZ 0).1
    (List.cons_ne_nil _ _)
    (by
      intro c hc
      rcases List.mem_cons.mp hc with h | h
      · subst h
        decide
      · rcases List.mem_cons.mp h with h2 | h2
        · subst h2
          decide
        · cases h2)

/-- Witness for C9: an unknown name together with an unknown index. -/
theorem resolve_drawback_id_unknown_to_none_witness :
    resolve_drawback_id ⟨Option.some "King Cannot Move", Option.some 42⟩ = DrawbackId.none := by
  exact resolve_drawback_id_unknown_to_none _
    (by intro n h; cases h; exact ⟨by decide, by decide, by decide⟩)
    (by intro i h; cases h; exact ⟨by decide, by decide, by decide⟩)

end DC
